import Mathlib

/-!
# FoundationDB Kubernetes operator: reconciliation engine

A shallow embedding of

* `controllers/add_process_groups.go` (`addProcessGroups.reconcile`),
* `controllers/restore_controller.go` (`FoundationDBRestoreReconciler.Reconcile`),
* the aggregator exercised by `controllers/metrics_test.go`,

together with the properties proved about them.

Go `int` is modelled by `Int`; the only place where the 64-bit width is
observable, the index scan guarded by `for idNum > 0`, wraps explicitly.
Go maps that are only read with the zero-value default are modelled by total
functions (`m[k]` of an absent key is `0`, `false`).
-/

namespace FDB

/-! ## Data model -/

/-- Go `type ProcessClass string`. -/
abbrev ProcessClass := String

/-- Go `type ProcessGroupConditionType string`. -/
abbrev ProcessGroupConditionType := String

/-- Go `error` values, identified by their text. -/
abbrev GoError := String

/-- One condition of a process group: its type and the time it was set. -/
structure ProcessGroupCondition where
  ProcessGroupConditionType : String
  Timestamp : Int
deriving DecidableEq, Repr

/-- The record `fdbtypes.ProcessGroupStatus`, with the fields the sources use. -/
structure ProcessGroupStatus where
  ProcessGroupID : String
  ProcessClass : String
  ProcessGroupConditions : List ProcessGroupCondition
  Remove : Bool
  Excluded : Bool
deriving DecidableEq, Repr

/-- Modelled from the spec: `ProcessGroupStatus.IsMarkedForRemoval` is not in the
sources; the spec's `MarkedForRemoval` flag is the record's `Remove` field. -/
def IsMarkedForRemoval (processGroup : ProcessGroupStatus) : Bool :=
  processGroup.Remove

/-- Modelled from the spec: `fdbtypes.NewProcessGroupStatus` is not in the sources; "each
allocation creates a new ProcessGroupStatus with empty condition set and both
flags false". The address argument is `nil` at the only call site. -/
def NewProcessGroupStatus (processGroupID : String) (processClass : ProcessClass) :
    ProcessGroupStatus :=
  { ProcessGroupID := processGroupID
    ProcessClass := processClass
    ProcessGroupConditions := []
    Remove := false
    Excluded := false }

/-- The signal `*requeue` a reconciliation step returns; `nil` is `none`. -/
structure requeue where
  curError : Option GoError
  message : String
deriving DecidableEq, Repr

/-- An event handed to `r.Recorder.Event`. -/
structure Event where
  eventtype : String
  reason : String
  message : String
deriving DecidableEq, Repr

/-! ## `addProcessGroups.reconcile` -/

/-- What `reconcile` takes from code outside `add_process_groups.go`: the
cluster's methods, package-level helpers and the declared class list. -/
structure ClusterEnv where
  /-- `cluster.GetProcessCountsWithDefaults()` followed by `.Map()`. -/
  GetProcessCountsWithDefaults : Except GoError (ProcessClass → Int)
  /-- `podmanager.ParseProcessGroupID`: the class prefix and the number. -/
  ParseProcessGroupID : String → Except GoError (ProcessClass × Int)
  /-- `fdbtypes.ProcessClasses`, the declared class list. -/
  ProcessClasses : List ProcessClass
  /-- Second result of `internal.GetProcessGroupID` for this cluster. -/
  GetProcessGroupID : ProcessClass → Int → String
  /-- `cluster.ProcessGroupIsBeingRemoved`. The step only appends records that are not
  marked for removal, so the answer for an ID is the same throughout the step. -/
  ProcessGroupIsBeingRemoved : String → Bool
  /-- `r.Status().Update(ctx, cluster)` on the given process-group list; `none` is a
  `nil` error. -/
  StatusUpdate : List ProcessGroupStatus → Option GoError

/-- Largest Go `int` on a 64-bit platform. -/
def maxInt : Int := 9223372036854775807

/-- Two's-complement wrap of a mathematical integer into the 64-bit `int` range. -/
def wrapInt (x : Int) : Int :=
  (x + 9223372036854775808) % 18446744073709551616 - 9223372036854775808

/-- Go `idNum++`. -/
def incr (idNum : Int) : Int := wrapInt (idNum + 1)

/-- The two maps the first loop of `reconcile` builds (lines 47-48). -/
structure Tally where
  processCounts : ProcessClass → Int
  processGroupIDs : ProcessClass → Int → Bool

/-- Both maps empty. -/
def Tally.empty : Tally :=
  { processCounts := fun _ => 0, processGroupIDs := fun _ _ => false }

/-- Body of the first loop (lines 50-65) for one record. -/
def tallyStep (env : ClusterEnv) (t : Tally) (processGroup : ProcessGroupStatus) :
    Except GoError Tally :=
  match env.ParseProcessGroupID processGroup.ProcessGroupID with
  | .error err => .error err
  | .ok (_, num) =>
    let cls := processGroup.ProcessClass
    let ids : ProcessClass → Int → Bool :=
      fun c n => if c = cls ∧ n = num then true else t.processGroupIDs c n
    let counts : ProcessClass → Int :=
      if !IsMarkedForRemoval processGroup then
        fun c => if c = cls then t.processCounts c + 1 else t.processCounts c
      else t.processCounts
    .ok { processCounts := counts, processGroupIDs := ids }

/-- The first loop (lines 49-66): stops at the first record whose ID does not parse. -/
def tally (env : ClusterEnv) : List ProcessGroupStatus → Tally → Except GoError Tally
  | [], t => .ok t
  | processGroup :: rest, t =>
    match tallyStep env t processGroup with
    | .error err => .error err
    | .ok t1 => tally env rest t1

/-- The test of line 89: the candidate is neither being removed nor claimed. -/
def isFree (env : ClusterEnv) (t : Tally) (processClass : ProcessClass) (idNum : Int) : Bool :=
  !env.ProcessGroupIsBeingRemoved (env.GetProcessGroupID processClass idNum)
    && !t.processGroupIDs processClass idNum

/-- The inner loop `for idNum > 0 { ... idNum++ }` (lines 86-94), run for at most
`fuel` iterations; the value of `idNum` when the loop is left. -/
def scanFrom (free : Int → Bool) : Nat → Int → Int
  | 0, idNum => idNum
  | fuel + 1, idNum =>
    if idNum > 0 then
      if free idNum then idNum else scanFrom free fuel (incr idNum)
    else idNum

/-- The inner loop with the number of iterations that is left before `idNum`
wraps to a non-positive value, so that the loop always runs to its exit. -/
def scan (free : Int → Bool) (idNum : Int) : Int :=
  scanFrom free (maxInt + 1 - idNum).toNat idNum

/-- The loop `for i := 0; i < newCount; i++` (lines 85-99): `n` iterations left. -/
def addLoop (env : ClusterEnv) (t : Tally) (processClass : ProcessClass) :
    Nat → Int → List ProcessGroupStatus → List ProcessGroupStatus
  | 0, _, processGroups => processGroups
  | n + 1, idNum, processGroups =>
    let idNum1 := scan (isFree env t processClass) idNum
    let processGroupID := env.GetProcessGroupID processClass idNum1
    addLoop env t processClass n (incr idNum1)
      (processGroups ++ [NewProcessGroupStatus processGroupID processClass])

/-- State carried through the loop over the declared classes. -/
structure AddState where
  processGroups : List ProcessGroupStatus
  events : List Event
  hasNewProcessGroups : Bool

/-- The event of line 78. -/
def addingEvent (newCount : Int) (processClass : ProcessClass) : Event :=
  { eventtype := "Normal"
    reason := "AddingProcesses"
    message := "Adding " ++ toString newCount ++ " " ++ processClass ++ " processes" }

/-- Lines 70-74: the number of groups to add for a class. -/
def newCountOf (desiredCounts : ProcessClass → Int) (t : Tally)
    (processClass : ProcessClass) : Int :=
  let desiredCount := desiredCounts processClass
  let desiredCount := if desiredCount < 0 then 0 else desiredCount
  desiredCount - t.processCounts processClass

/-- Body of the loop over `fdbtypes.ProcessClasses` (lines 70-100). -/
def classStep (env : ClusterEnv) (desiredCounts : ProcessClass → Int) (t : Tally)
    (st : AddState) (processClass : ProcessClass) : AddState :=
  let newCount := newCountOf desiredCounts t processClass
  if newCount ≤ 0 then st
  else
    { processGroups := addLoop env t processClass newCount.toNat 1 st.processGroups
      events := st.events ++ [addingEvent newCount processClass]
      hasNewProcessGroups := true }

/-- What one run of `reconcile` leaves behind. -/
structure AddOutcome where
  /-- `cluster.Status.ProcessGroups` after the run. -/
  processGroups : List ProcessGroupStatus
  /-- Events recorded, oldest first. -/
  events : List Event
  /-- The process-group list of every `r.Status().Update` call, oldest first. -/
  statusUpdates : List (List ProcessGroupStatus)
  /-- The returned `*requeue`. -/
  result : Option requeue
deriving DecidableEq, Repr

/-- The function `addProcessGroups.reconcile` (lines 40-111) on a cluster whose
`Status.ProcessGroups` is `processGroups`. -/
def reconcile (env : ClusterEnv) (processGroups : List ProcessGroupStatus) : AddOutcome :=
  match env.GetProcessCountsWithDefaults with
  | .error err =>
    { processGroups := processGroups, events := [], statusUpdates := []
      result := some { curError := some err, message := "" } }
  | .ok desiredCounts =>
    match tally env processGroups Tally.empty with
    | .error err =>
      { processGroups := processGroups, events := [], statusUpdates := []
        result := some { curError := some err, message := "" } }
    | .ok t =>
      let st := env.ProcessClasses.foldl (classStep env desiredCounts t)
        { processGroups := processGroups, events := [], hasNewProcessGroups := false }
      if st.hasNewProcessGroups then
        match env.StatusUpdate st.processGroups with
        | some err =>
          { processGroups := st.processGroups, events := st.events
            statusUpdates := [st.processGroups]
            result := some { curError := some err, message := "" } }
        | none =>
          { processGroups := st.processGroups, events := st.events
            statusUpdates := [st.processGroups], result := none }
      else
        { processGroups := st.processGroups, events := st.events
          statusUpdates := [], result := none }

/-! ### Concrete scenarios -/

/-- A cluster environment for the scenarios: IDs are `class-number`, the listed
IDs parse, and the IDs in `removed` are reported as being removed. -/
def scenarioEnv (desired : ProcessClass → Int) (parsed : List (String × ProcessClass × Int))
    (removed : List String) : ClusterEnv :=
  { GetProcessCountsWithDefaults := .ok desired
    ParseProcessGroupID := fun id =>
      match parsed.lookup id with
      | some v => .ok v
      | none => .error ("could not parse process group ID " ++ id)
    ProcessClasses := ["storage", "log", "stateless"]
    GetProcessGroupID := fun c i => c ++ "-" ++ toString i
    ProcessGroupIsBeingRemoved := fun id => removed.contains id
    StatusUpdate := fun _ => none }

/-- Desired counts `{storage: 3}`. -/
def storage3 : ProcessClass → Int := fun c => if c = "storage" then 3 else 0

/-- Existing groups `storage/1` (live) and `storage/2` (marked for removal). -/
def scenarioGroups : List ProcessGroupStatus :=
  [ { ProcessGroupID := "storage-1", ProcessClass := "storage", ProcessGroupConditions := []
      Remove := false, Excluded := false },
    { ProcessGroupID := "storage-2", ProcessClass := "storage", ProcessGroupConditions := []
      Remove := true, Excluded := false } ]

/-- The IDs of `scenarioGroups` with their parses. -/
def scenarioParsed : List (String × ProcessClass × Int) :=
  [("storage-1", "storage", 1), ("storage-2", "storage", 2),
   ("storage-3", "storage", 3), ("storage-4", "storage", 4)]

/-! ### Vocabulary of the allocation claims -/

/-- Number of existing records of a class that are not marked for removal. -/
def liveCount (processGroups : List ProcessGroupStatus) (c : ProcessClass) : Nat :=
  (processGroups.filter (fun g => g.ProcessClass = c ∧ g.Remove = false)).length

/-- The numeric index of a record, when its ID parses. -/
def parsedNum (env : ClusterEnv) (g : ProcessGroupStatus) : Option Int :=
  match env.ParseProcessGroupID g.ProcessGroupID with
  | .ok (_, num) => some num
  | .error _ => none

/-- The error of parsing a record's ID, when it does not parse. -/
def parseError (env : ClusterEnv) (g : ProcessGroupStatus) : Option GoError :=
  match env.ParseProcessGroupID g.ProcessGroupID with
  | .ok _ => none
  | .error err => some err

/-- Index `n` is claimed by an existing record of class `c`, live or marked for removal. -/
def claimed (env : ClusterEnv) (processGroups : List ProcessGroupStatus)
    (c : ProcessClass) (n : Int) : Bool :=
  processGroups.any (fun g => g.ProcessClass = c ∧ parsedNum env g = some n)

/-- Index `n` is one the scan for class `c` skips: claimed by an existing record of the
class, or its ID is reported as being removed. -/
def skipped (env : ClusterEnv) (processGroups : List ProcessGroupStatus)
    (c : ProcessClass) (n : Int) : Bool :=
  env.ProcessGroupIsBeingRemoved (env.GetProcessGroupID c n) || claimed env processGroups c n

/-- The (class, index) keys of the existing records whose ID parses. -/
def keysOf (env : ClusterEnv) (processGroups : List ProcessGroupStatus) :
    List (ProcessClass × Int) :=
  processGroups.filterMap (fun g => (parsedNum env g).map (fun n => (g.ProcessClass, n)))

/-- The records a run of `reconcile` appends. -/
def appended (env : ClusterEnv) (processGroups : List ProcessGroupStatus) :
    List ProcessGroupStatus :=
  (reconcile env processGroups).processGroups.drop processGroups.length

/-- The appended records of one class. -/
def appendedOf (env : ClusterEnv) (processGroups : List ProcessGroupStatus)
    (c : ProcessClass) : List ProcessGroupStatus :=
  (appended env processGroups).filter (fun g => g.ProcessClass = c)

/-- The indices the loop of lines 85-99 assigns, in the order it assigns them. -/
def pickIndices (free : Int → Bool) : Nat → Int → List Int
  | 0, _ => []
  | n + 1, idNum =>
    let idNum1 := scan free idNum
    idNum1 :: pickIndices free n (incr idNum1)

/-- The gap `max(0, desired - liveCount)` with a negative desired count read as 0. -/
def gap (desired : ProcessClass → Int) (processGroups : List ProcessGroupStatus)
    (c : ProcessClass) : Int :=
  max 0 (max 0 (desired c) - (liveCount processGroups c : Int))

/-- The indices the body of the class loop (lines 70-100) assigns to one class. -/
def newIndicesFor (env : ClusterEnv) (desiredCounts : ProcessClass → Int) (t : Tally)
    (c : ProcessClass) : List Int :=
  if newCountOf desiredCounts t c ≤ 0 then []
  else pickIndices (isFree env t c) (newCountOf desiredCounts t c).toNat 1

/-- The records the body of the class loop appends for one class. -/
def newGroupsFor (env : ClusterEnv) (desiredCounts : ProcessClass → Int) (t : Tally)
    (c : ProcessClass) : List ProcessGroupStatus :=
  (newIndicesFor env desiredCounts t c).map
    (fun i => NewProcessGroupStatus (env.GetProcessGroupID c i) c)


/-- The list `idxs` consists of the smallest positive integers outside `taken`, in
strictly ascending order: every member is positive and not taken, and every
positive integer that is not taken and not a member lies above all members. -/
def SmallestFree (taken : Int → Bool) (idxs : List Int) : Prop :=
  idxs.Pairwise (fun a b => a < b) ∧
  (∀ i ∈ idxs, 0 < i ∧ taken i = false) ∧
  (∀ j, 0 < j → taken j = false → j ∉ idxs → ∀ i ∈ idxs, i < j)

/-- Desired counts `{storage: 1}`. -/
def storage1 : ProcessClass → Int := fun c => if c = "storage" then 1 else 0


/-- The scenario's groups with a record in the middle whose ID does not parse. -/
def corruptGroups : List ProcessGroupStatus :=
  [ { ProcessGroupID := "storage-1", ProcessClass := "storage", ProcessGroupConditions := []
      Remove := false, Excluded := false },
    { ProcessGroupID := "garbage", ProcessClass := "storage", ProcessGroupConditions := []
      Remove := false, Excluded := false },
    { ProcessGroupID := "storage-2", ProcessClass := "storage", ProcessGroupConditions := []
      Remove := true, Excluded := false } ]


/-! ## `FoundationDBRestoreReconciler.Reconcile` -/

/-- The struct `ctrl.Result`. -/
structure Result where
  Requeue : Bool
  RequeueAfter : Int
deriving DecidableEq, Repr

/-- The literal `ctrl.Result{}`. -/
def Result.empty : Result := { Requeue := false, RequeueAfter := 0 }

/-- A value of the interface `restoreSubReconciler`. Its `reconcile` method receives
the restore object by reference and may act on the cluster; `σ` is the state it
reads and leaves behind (the restore object together with what the reconciler
handle reaches). `name` identifies the step in the call trace. -/
structure restoreSubReconciler (σ : Type) where
  name : String
  reconcile : σ → σ × Option requeue

/-- What `Reconcile` takes from code outside `restore_controller.go`. -/
structure RestoreReconciler (σ : Type) where
  /-- `r.Get(ctx, request.NamespacedName, restore)`: the state with the loaded
  restore object, or the error. -/
  Get : String → Except GoError σ
  /-- `k8serrors.IsNotFound`. -/
  IsNotFound : GoError → Bool
  /-- The step `startRestore{}`. -/
  startRestore : restoreSubReconciler σ
  /-- `processRequeue(requeue, subReconciler, restore, r.Recorder, restoreLog)`. -/
  processRequeue : requeue → String → σ → Result × Option GoError

/-- What one call of `Reconcile` does and returns. -/
structure ReconcileOutcome (σ : Type) where
  /-- Names of the steps whose `reconcile` was called, in call order. -/
  invoked : List String
  /-- The state the calls of `reconcile` left behind (the restore object and what the
  reconciler handle reaches) when the function returns; `none` when the object
  was not loaded. -/
  state : Option σ
  /-- Lines written with `restoreLog.Info`. -/
  log : List String
  /-- The returned `ctrl.Result`. -/
  result : Result
  /-- The returned `error`; `none` is `nil`. -/
  err : Option GoError
deriving DecidableEq, Repr

/-- The loop over `subReconcilers` (lines 75-82) followed by lines 84-86; `invoked`
is the trace of the calls made so far. -/
def runSubReconcilers {σ : Type} (r : RestoreReconciler σ) :
    List (restoreSubReconciler σ) → σ → List String → ReconcileOutcome σ
  | [], restore, invoked =>
    { invoked := invoked, state := some restore, log := ["Reconciliation complete"]
      result := Result.empty, err := none }
  | subReconciler :: rest, restore, invoked =>
    match subReconciler.reconcile restore with
    | (restore1, none) => runSubReconcilers r rest restore1 (invoked ++ [subReconciler.name])
    | (restore1, some rq) =>
      { invoked := invoked ++ [subReconciler.name], state := some restore1, log := []
        result := (r.processRequeue rq subReconciler.name restore1).1
        err := (r.processRequeue rq subReconciler.name restore1).2 }

/-- The function `Reconcile` (lines 55-87) for a given list of sub-reconcilers. -/
def ReconcileWith {σ : Type} (r : RestoreReconciler σ)
    (subReconcilers : List (restoreSubReconciler σ)) (request : String) : ReconcileOutcome σ :=
  match r.Get request with
  | .error err =>
    if r.IsNotFound err then
      { invoked := [], state := none, log := [], result := Result.empty, err := none }
    else
      { invoked := [], state := none, log := [], result := Result.empty, err := some err }
  | .ok restore => runSubReconcilers r subReconcilers restore []

/-- The function `Reconcile` with the list of lines 71-73. -/
def Reconcile {σ : Type} (r : RestoreReconciler σ) (request : String) : ReconcileOutcome σ :=
  ReconcileWith r [r.startRestore] request

/-- The state after the steps of `steps` have run in order, when every one of them
returned `nil`; `none` when one of them returned a non-nil signal. -/
def passAll {σ : Type} : List (restoreSubReconciler σ) → σ → Option σ
  | [], restore => some restore
  | subReconciler :: rest, restore =>
    match subReconciler.reconcile restore with
    | (restore1, none) => passAll rest restore1
    | (_, some _) => none

/-- A step that succeeds, counting its call in the state. -/
def okStep (name : String) : restoreSubReconciler Nat :=
  { name := name, reconcile := fun n => (n + 1, none) }

/-- A step that stops the pass with an error. -/
def failStep (name : String) (err : GoError) : restoreSubReconciler Nat :=
  { name := name, reconcile := fun n => (n + 1, some { curError := some err, message := "" }) }

/-- A reconciler for the scenarios: the request `gone` is not found, `broken` fails to
load, anything else loads; a requeue with an error is returned as that error. -/
def demoReconciler : RestoreReconciler Nat :=
  { Get := fun request =>
      if request = "gone" then .error "not found"
      else if request = "broken" then .error "connection refused"
      else .ok 0
    IsNotFound := fun err => err = "not found"
    startRestore := okStep "startRestore"
    processRequeue := fun rq _ _ =>
      match rq.curError with
      | some err => (Result.empty, some err)
      | none => ({ Requeue := true, RequeueAfter := 0 }, none) }

/-- A step that succeeds and writes its name at the end of a journal kept in the state. -/
def journalStep (name : String) : restoreSubReconciler (List String) :=
  { name := name, reconcile := fun journal => (journal ++ [name], none) }

/-- A reconciler whose state is a journal of the calls made; every request loads with
an empty journal. -/
def journalReconciler : RestoreReconciler (List String) :=
  { Get := fun _ => .ok []
    IsNotFound := fun _ => false
    startRestore := journalStep "startRestore"
    processRequeue := fun _ _ _ => (Result.empty, none) }


/-! ## `getDatabaseClientProvider` and `adminClientForRestore` -/

/-- How a Go call ends: it returns a value, or it panics with a message. -/
inductive GoCall (α : Type) where
  | returns (value : α)
  | panics (message : String)

/-- An `fdbadminclient.AdminClient`, with the knobs `SetKnobs` stored in it. -/
structure AdminClient where
  name : String
  knobs : List String
deriving DecidableEq, Repr

/-- The interface `DatabaseClientProvider`; `GetAdminClient` is applied to the loaded
cluster. -/
structure DatabaseClientProvider where
  GetAdminClient : String → Except GoError AdminClient

/-- The parts of a `FoundationDBRestore` that `adminClientForRestore` reads;
`KnobsForCLI` is the value of `restore.Spec.CustomParameters.GetKnobsForCLI()`. -/
structure RestoreTarget where
  Namespace : String
  DestinationClusterName : String
  KnobsForCLI : List String
deriving DecidableEq, Repr

/-- The parts of the `FoundationDBRestoreReconciler` that the two methods use: `r.Get` on
a namespace and a cluster name, and the field `DatabaseClientProvider` (`none`
is `nil`). -/
structure RestoreClientReconciler where
  GetCluster : String → String → Except GoError String
  DatabaseClientProvider : Option DatabaseClientProvider

/-- The method `getDatabaseClientProvider` (lines 90-95). -/
def getDatabaseClientProvider (r : RestoreClientReconciler) : GoCall DatabaseClientProvider :=
  match r.DatabaseClientProvider with
  | some provider => .returns provider
  | none => .panics "Restore reconciler does not have a DatabaseClientProvider defined"

/-- The method `adminClientForRestore` (lines 98-113); a normal return is the pair of
the admin client and the error. -/
def adminClientForRestore (r : RestoreClientReconciler) (restore : RestoreTarget) :
    GoCall (Option AdminClient × Option GoError) :=
  match r.GetCluster restore.Namespace restore.DestinationClusterName with
  | .error err => .returns (none, some err)
  | .ok cluster =>
    match getDatabaseClientProvider r with
    | .panics message => .panics message
    | .returns provider =>
      match provider.GetAdminClient cluster with
      | .error err => .returns (none, some err)
      | .ok adminClient =>
        .returns (some { adminClient with knobs := restore.KnobsForCLI }, none)


/-! ## `getProcessGroupMetrics` -/

/-- A Go map whose key set matters: an association list that `set` keeps free of
repeated keys. -/
abbrev GoMap (κ ν : Type) := List (κ × ν)

/-- The value `m[k]` with the comma-ok flag folded into an option. -/
def GoMap.find {κ ν : Type} [DecidableEq κ] : GoMap κ ν → κ → Option ν
  | [], _ => none
  | (k1, v1) :: rest, k => if k1 = k then some v1 else GoMap.find rest k

/-- The assignment `m[k] = v`. -/
def GoMap.set {κ ν : Type} [DecidableEq κ] : GoMap κ ν → κ → ν → GoMap κ ν
  | [], k, v => [(k, v)]
  | (k1, v1) :: rest, k, v =>
    if k1 = k then (k1, v) :: rest else (k1, v1) :: GoMap.set rest k v

/-- The read `m[k]` of a counter map: an absent key reads 0. -/
def GoMap.count {κ : Type} [DecidableEq κ] (m : GoMap κ Nat) (k : κ) : Nat :=
  (GoMap.find m k).getD 0

/-- The condition type `fdbtypes.ReadyCondition`. -/
def ReadyCondition : ProcessGroupConditionType := "Ready"

/-- The condition type `fdbtypes.MissingProcesses`. -/
def MissingProcesses : ProcessGroupConditionType := "MissingProcesses"

/-- The three results of `getProcessGroupMetrics`. -/
structure Metrics where
  /-- The condition matrix, class to condition type to count. -/
  stats : GoMap ProcessClass (GoMap ProcessGroupConditionType Nat)
  /-- The removal counter. -/
  removals : GoMap ProcessClass Nat
  /-- The exclusion counter. -/
  exclusions : GoMap ProcessClass Nat
deriving DecidableEq, Repr

/-- Modelled from the spec: the condition tags one group is counted under, for
`getProcessGroupMetrics`, which is not in the sources. "A group with zero
explicit negative conditions is implicitly counted under a synthetic Ready tag";
otherwise it is counted under the tags of its condition set (a set: each tag
once). -/
def exhibited (g : ProcessGroupStatus) : List ProcessGroupConditionType :=
  if g.ProcessGroupConditions = [] then [ReadyCondition]
  else (g.ProcessGroupConditions.map (fun cond => cond.ProcessGroupConditionType)).dedup

/-- Modelled from the spec: a row of the condition matrix with count 0 for every tag of
the conditions catalog `fdbtypes.AllProcessGroupConditionTypes()`, which is not
in the sources. -/
def zeroRow (catalog : List ProcessGroupConditionType) : GoMap ProcessGroupConditionType Nat :=
  catalog.foldl (fun row tag => GoMap.set row tag 0) []

/-- Modelled from the spec: the visit of one group by the fold of
`getProcessGroupMetrics`, which is not in the sources. The group's class gets a
row on its first visit; the group is counted once under every tag it exhibits,
once in the removal counter when marked for removal and once in the exclusion
counter when excluded. -/
def metricsStep (catalog : List ProcessGroupConditionType) (m : Metrics)
    (g : ProcessGroupStatus) : Metrics :=
  let row := (GoMap.find m.stats g.ProcessClass).getD (zeroRow catalog)
  let row1 := (exhibited g).foldl (fun acc tag => GoMap.set acc tag (GoMap.count acc tag + 1)) row
  { stats := GoMap.set m.stats g.ProcessClass row1
    removals := GoMap.set m.removals g.ProcessClass
      (GoMap.count m.removals g.ProcessClass + (if g.Remove then 1 else 0))
    exclusions := GoMap.set m.exclusions g.ProcessClass
      (GoMap.count m.exclusions g.ProcessClass + (if g.Excluded then 1 else 0)) }

/-- Modelled from the spec: `getProcessGroupMetrics`, which is not in the sources (only
its test is): "a pure, side-effect-free fold" over the process groups that
"must visit every group exactly once", producing the condition matrix, the
removal counter and the exclusion counter. -/
def getProcessGroupMetrics (catalog : List ProcessGroupConditionType)
    (processGroups : List ProcessGroupStatus) : Metrics :=
  processGroups.foldl (metricsStep catalog) { stats := [], removals := [], exclusions := [] }

/-- The read `stats[class][tag]`. -/
def Metrics.stat (m : Metrics) (c : ProcessClass) (tag : ProcessGroupConditionType) : Nat :=
  GoMap.count ((GoMap.find m.stats c).getD []) tag

/-- A group carries an explicit condition of the given type. -/
def carries (g : ProcessGroupStatus) (tag : ProcessGroupConditionType) : Bool :=
  g.ProcessGroupConditions.any (fun cond => cond.ProcessGroupConditionType = tag)

/-- The process groups of `metrics_test.go` (lines 33-56). -/
def testGroups : List ProcessGroupStatus :=
  [ { ProcessGroupID := "", ProcessClass := "storage", ProcessGroupConditions := []
      Remove := false, Excluded := false },
    { ProcessGroupID := "", ProcessClass := "log"
      ProcessGroupConditions := [{ ProcessGroupConditionType := MissingProcesses, Timestamp := 0 }]
      Remove := false, Excluded := false },
    { ProcessGroupID := "", ProcessClass := "storage", ProcessGroupConditions := []
      Remove := true, Excluded := false },
    { ProcessGroupID := "", ProcessClass := "stateless", ProcessGroupConditions := []
      Remove := true, Excluded := true } ]

/-- A conditions catalog for the scenarios. -/
def testCatalog : List ProcessGroupConditionType :=
  ["IncorrectPodSpec", "PodFailing", "MissingPod", "MissingPVC", MissingProcesses, ReadyCondition]

/-- A single storage group that carries the Ready condition explicitly. -/
def explicitReadyGroups : List ProcessGroupStatus :=
  [ { ProcessGroupID := "storage-1", ProcessClass := "storage"
      ProcessGroupConditions := [{ ProcessGroupConditionType := ReadyCondition, Timestamp := 0 }]
      Remove := false, Excluded := false } ]


/-- The keys of a Go map, in insertion order. -/
def GoMap.keys {κ ν : Type} (m : GoMap κ ν) : List κ := m.map Prod.fst

/-- The classes that occur among the groups, each once, in order of first occurrence,
after the classes of `seen`. -/
def classesSeen (processGroups : List ProcessGroupStatus) (seen : List ProcessClass) :
    List ProcessClass :=
  processGroups.foldl (fun ks g => if g.ProcessClass ∈ ks then ks else ks ++ [g.ProcessClass]) seen

/-- The number of group records of a class, removal-marked records included. -/
def totalGroups (processGroups : List ProcessGroupStatus) (c : ProcessClass) : Nat :=
  (processGroups.filter (fun g => decide (g.ProcessClass = c))).length

/-- A restore reconciler without a database client provider; every cluster loads. -/
def noProviderReconciler : RestoreClientReconciler :=
  { GetCluster := fun _ name => .ok name, DatabaseClientProvider := none }

/-- A restore into the cluster `sample-cluster`. -/
def sampleRestore : RestoreTarget :=
  { Namespace := "default", DestinationClusterName := "sample-cluster", KnobsForCLI := [] }


/-! ## Theorems -/

/-! ### Arithmetic of the index scan -/

theorem incr_eq_add_one (i : Int) (h0 : 0 ≤ i) (h1 : i < maxInt) : incr i = i + 1 := by
  unfold incr wrapInt
  unfold maxInt at h1
  omega

theorem scanFrom_first_free (free : Int → Bool) (j : Int) (hj : free j = true)
    (hmax : j ≤ maxInt) :
    ∀ (fuel : Nat) (idNum : Int), 0 < idNum → idNum ≤ j → maxInt + 1 - idNum ≤ fuel →
      idNum ≤ scanFrom free fuel idNum ∧ scanFrom free fuel idNum ≤ j ∧
      free (scanFrom free fuel idNum) = true ∧
      ∀ k, idNum ≤ k → k < scanFrom free fuel idNum → free k = false := by
  intro fuel
  induction fuel with
  | zero =>
    intro idNum _ h2 h3
    exfalso
    simp only [Nat.cast_zero] at h3
    omega
  | succ fuel ih =>
    intro idNum h1 h2 h3
    by_cases hf : free idNum = true
    · have hs : scanFrom free (fuel + 1) idNum = idNum := by
        simp [scanFrom, h1, hf]
      rw [hs]
      refine ⟨le_refl _, h2, hf, ?_⟩
      intro k hk1 hk2
      omega
    · have hne : idNum ≠ j := by
        intro h
        rw [h] at hf
        exact hf hj
      have hlt : idNum < j := lt_of_le_of_ne h2 hne
      have hinc : incr idNum = idNum + 1 := incr_eq_add_one idNum (by omega) (by omega)
      have hfuel : maxInt + 1 - (idNum + 1) ≤ (fuel : Int) := by
        push_cast at h3
        omega
      obtain ⟨a, b, c, d⟩ := ih (idNum + 1) (by omega) (by omega) hfuel
      have hs : scanFrom free (fuel + 1) idNum = scanFrom free fuel (idNum + 1) := by
        simp [scanFrom, h1, hf, hinc]
      rw [hs]
      refine ⟨by omega, b, c, ?_⟩
      intro k hk1 hk2
      by_cases hk : k = idNum
      · rw [hk]
        simpa using hf
      · exact d k (by omega) hk2

theorem scan_first_free (free : Int → Bool) (idNum j : Int) (h0 : 0 < idNum)
    (hle : idNum ≤ j) (hj : free j = true) (hmax : j ≤ maxInt) :
    idNum ≤ scan free idNum ∧ scan free idNum ≤ j ∧ free (scan free idNum) = true ∧
      ∀ k, idNum ≤ k → k < scan free idNum → free k = false := by
  unfold scan
  apply scanFrom_first_free free j hj hmax _ idNum h0 hle
  have : idNum ≤ maxInt := le_trans hle hmax
  rw [Int.toNat_of_nonneg (by omega)]

/-- The fuel `scan` gives the inner loop is enough: for every `idNum` in the range of
`int` the loop is left through its condition (`idNum ≤ 0` after a wrap) or
through its `break` (a free candidate), never because the fuel ran out. -/
theorem scan_reaches_exit (free : Int → Bool) (idNum : Int) (hmax : idNum ≤ maxInt) :
    scan free idNum ≤ 0 ∨ free (scan free idNum) = true := by
  have hgen : ∀ (fuel : Nat) (i : Int), i ≤ maxInt → maxInt + 1 - i ≤ fuel →
      scanFrom free fuel i ≤ 0 ∨ free (scanFrom free fuel i) = true := by
    intro fuel
    induction fuel with
    | zero =>
      intro i h1 h2
      exfalso
      simp only [Nat.cast_zero] at h2
      omega
    | succ fuel ih =>
      intro i h1 h2
      by_cases hpos : i > 0
      · by_cases hf : free i = true
        · right
          simp [scanFrom, hpos, hf]
        · have hs : scanFrom free (fuel + 1) i = scanFrom free fuel (incr i) := by
            simp [scanFrom, hpos, hf]
          rw [hs]
          by_cases hlast : i = maxInt
          · have hwrap : incr i = -9223372036854775808 := by
              rw [hlast]
              decide
            rw [hwrap]
            left
            cases fuel with
            | zero => simp [scanFrom]
            | succ k => simp [scanFrom]
          · have hinc : incr i = i + 1 := incr_eq_add_one i (by omega) (by omega)
            rw [hinc]
            apply ih (i + 1) (by omega)
            push_cast at h2
            omega
      · left
        have hs : scanFrom free (fuel + 1) i = i := by
          simp [scanFrom, hpos]
        rw [hs]
        omega
  unfold scan
  apply hgen _ idNum hmax
  rw [Int.toNat_of_nonneg (by omega)]

theorem pickIndices_length (free : Int → Bool) :
    ∀ (n : Nat) (idNum : Int), (pickIndices free n idNum).length = n := by
  intro n
  induction n with
  | zero => intro idNum; rfl
  | succ n ih =>
    intro idNum
    simp [pickIndices, ih]

theorem pickIndices_in_range (free : Int → Bool) :
    ∀ (n : Nat) (B idNum : Int), (∀ i, B ≤ i → free i = true) → 0 < idNum → idNum ≤ B →
      B + n ≤ maxInt →
      (pickIndices free n idNum).Pairwise (fun a b => a < b) ∧
      (∀ i ∈ pickIndices free n idNum, idNum ≤ i ∧ i < B + n ∧ free i = true) ∧
      (∀ j, idNum ≤ j → free j = true → j ∉ pickIndices free n idNum →
        ∀ i ∈ pickIndices free n idNum, i < j) := by
  intro n
  induction n with
  | zero =>
    intro B idNum _ _ _ _
    simp [pickIndices]
  | succ n ih =>
    intro B idNum hB h0 hle hmax
    push_cast at hmax
    obtain ⟨s1, s2, s3, s4⟩ :=
      scan_first_free free idNum B h0 hle (hB B (le_refl _)) (by omega)
    have hinc : incr (scan free idNum) = scan free idNum + 1 :=
      incr_eq_add_one _ (by omega) (by omega)
    obtain ⟨p1, p2, p3⟩ := ih (B + 1) (scan free idNum + 1)
      (fun i hi => hB i (by omega)) (by omega) (by omega) (by omega)
    simp only [pickIndices, hinc]
    refine ⟨?_, ?_, ?_⟩
    · rw [List.pairwise_cons]
      refine ⟨?_, p1⟩
      intro a ha
      have := (p2 a ha).1
      omega
    · intro i hi
      rw [List.mem_cons] at hi
      rcases hi with rfl | hi
      · refine ⟨s1, ?_, s3⟩
        push_cast
        omega
      · obtain ⟨a, b, c⟩ := p2 i hi
        refine ⟨by omega, ?_, c⟩
        push_cast
        omega
    · intro j hj1 hj2 hj3 i hi
      rw [List.mem_cons, not_or] at hj3
      have hjr : scan free idNum < j := by
        rcases lt_trichotomy j (scan free idNum) with h | h | h
        · have := s4 j hj1 h
          rw [hj2] at this
          exact absurd this (by decide)
        · exact absurd h hj3.1
        · exact h
      rw [List.mem_cons] at hi
      rcases hi with rfl | hi
      · exact hjr
      · exact p3 j (by omega) hj2 hj3.2 i hi

theorem addLoop_eq (env : ClusterEnv) (t : Tally) (c : ProcessClass) :
    ∀ (n : Nat) (idNum : Int) (processGroups : List ProcessGroupStatus),
      addLoop env t c n idNum processGroups =
        processGroups ++ (pickIndices (isFree env t c) n idNum).map
          (fun i => NewProcessGroupStatus (env.GetProcessGroupID c i) c) := by
  intro n
  induction n with
  | zero => intro idNum processGroups; simp [addLoop, pickIndices]
  | succ n ih =>
    intro idNum processGroups
    simp [addLoop, pickIndices, ih]

/-! ### The first loop -/

theorem tally_ok_spec (env : ClusterEnv) :
    ∀ (processGroups : List ProcessGroupStatus) (t0 t : Tally),
      tally env processGroups t0 = .ok t →
      (∀ g ∈ processGroups, parseError env g = none) ∧
      (∀ c, t.processCounts c = t0.processCounts c + (liveCount processGroups c : Int)) ∧
      (∀ c n, t.processGroupIDs c n = (t0.processGroupIDs c n || claimed env processGroups c n)) := by
  intro processGroups
  induction processGroups with
  | nil =>
    intro t0 t h
    simp only [tally, Except.ok.injEq] at h
    subst h
    simp [liveCount, claimed]
  | cons g rest ih =>
    intro t0 t h
    simp only [tally, tallyStep] at h
    cases hp : env.ParseProcessGroupID g.ProcessGroupID with
    | error e => simp [hp] at h
    | ok v =>
      obtain ⟨pc, num⟩ := v
      simp only [hp] at h
      obtain ⟨a, b, c⟩ := ih _ t h
      refine ⟨?_, ?_, ?_⟩
      · intro g1 hg1
        rw [List.mem_cons] at hg1
        rcases hg1 with rfl | hg1
        · simp [parseError, hp]
        · exact a g1 hg1
      · intro cl
        rw [b cl]
        by_cases hc : g.ProcessClass = cl
        · subst hc
          cases hr : g.Remove
          · simp only [liveCount, IsMarkedForRemoval, hr, Bool.not_false, if_true, and_self,
              decide_True, List.filter_cons, List.length_cons]
            push_cast
            omega
          · simp [liveCount, IsMarkedForRemoval, hr, List.filter_cons]
        · have hne : ¬ cl = g.ProcessClass := fun hcontra => hc hcontra.symm
          cases hr : g.Remove <;>
            simp [liveCount, IsMarkedForRemoval, hr, hc, hne, List.filter_cons]
      · intro cl n
        rw [c cl n]
        have hsym : (n = num) = (num = n) := propext eq_comm
        by_cases hc : g.ProcessClass = cl <;> by_cases hn : num = n <;>
          simp [claimed, parsedNum, hp, hc, hn, hsym, eq_comm (a := cl)]

theorem tally_error_spec (env : ClusterEnv) :
    ∀ (processGroups : List ProcessGroupStatus) (t0 : Tally) (err : GoError),
      tally env processGroups t0 = .error err →
      processGroups.findSome? (parseError env) = some err := by
  intro processGroups
  induction processGroups with
  | nil => intro t0 err h; simp [tally] at h
  | cons g rest ih =>
    intro t0 err h
    simp only [tally, tallyStep] at h
    cases hp : env.ParseProcessGroupID g.ProcessGroupID with
    | error e =>
      simp only [hp, Except.error.injEq] at h
      simp [List.findSome?, parseError, hp, h]
    | ok v =>
      obtain ⟨pc, num⟩ := v
      simp only [hp] at h
      simp [List.findSome?, parseError, hp, ih _ _ h]

/-! ### The loop over the declared classes -/

theorem classStep_spec (env : ClusterEnv) (d : ProcessClass → Int) (t : Tally)
    (st : AddState) (c : ProcessClass) :
    (classStep env d t st c).processGroups = st.processGroups ++ newGroupsFor env d t c ∧
    (classStep env d t st c).events = st.events ++
      (if 0 < newCountOf d t c then [addingEvent (newCountOf d t c) c] else []) ∧
    (classStep env d t st c).hasNewProcessGroups =
      (st.hasNewProcessGroups || decide (0 < newCountOf d t c)) := by
  by_cases h : newCountOf d t c ≤ 0
  · have h2 : ¬ 0 < newCountOf d t c := not_lt.mpr h
    simp [classStep, newGroupsFor, newIndicesFor, h, h2]
  · have h2 : 0 < newCountOf d t c := not_le.mp h
    simp [classStep, newGroupsFor, newIndicesFor, h, h2, addLoop_eq]

theorem foldl_classStep_spec (env : ClusterEnv) (d : ProcessClass → Int) (t : Tally) :
    ∀ (classes : List ProcessClass) (st : AddState),
      (classes.foldl (classStep env d t) st).processGroups =
        st.processGroups ++ classes.flatMap (newGroupsFor env d t) ∧
      (classes.foldl (classStep env d t) st).events = st.events ++
        (classes.filter (fun c => decide (0 < newCountOf d t c))).map
          (fun c => addingEvent (newCountOf d t c) c) ∧
      (classes.foldl (classStep env d t) st).hasNewProcessGroups =
        (st.hasNewProcessGroups || classes.any (fun c => decide (0 < newCountOf d t c))) := by
  intro classes
  induction classes with
  | nil => intro st; simp
  | cons c rest ih =>
    intro st
    obtain ⟨a1, a2, a3⟩ := ih (classStep env d t st c)
    obtain ⟨b1, b2, b3⟩ := classStep_spec env d t st c
    rw [List.foldl_cons, a1, a2, a3, b1, b2, b3]
    refine ⟨by simp [List.flatMap_cons], ?_, by simp [Bool.or_assoc]⟩
    by_cases h : 0 < newCountOf d t c <;> simp [List.filter_cons, h]

theorem newGroupsFor_class (env : ClusterEnv) (d : ProcessClass → Int) (t : Tally)
    (c : ProcessClass) : ∀ g ∈ newGroupsFor env d t c, g.ProcessClass = c := by
  intro g hg
  simp only [newGroupsFor, List.mem_map] at hg
  obtain ⟨i, _, rfl⟩ := hg
  rfl

theorem filter_flatMap_newGroupsFor (env : ClusterEnv) (d : ProcessClass → Int) (t : Tally)
    (c : ProcessClass) :
    ∀ (classes : List ProcessClass), classes.Nodup →
      (classes.flatMap (newGroupsFor env d t)).filter (fun g => decide (g.ProcessClass = c)) =
        if c ∈ classes then newGroupsFor env d t c else [] := by
  intro classes
  induction classes with
  | nil => intro _; simp
  | cons c1 rest ih =>
    intro hnd
    rw [List.nodup_cons] at hnd
    rw [List.flatMap_cons, List.filter_append, ih hnd.2]
    by_cases h : c1 = c
    · subst h
      have hall : (newGroupsFor env d t c1).filter (fun g => decide (g.ProcessClass = c1)) =
          newGroupsFor env d t c1 := by
        rw [List.filter_eq_self]
        intro g hg
        simp [newGroupsFor_class env d t c1 g hg]
      simp [hall, hnd.1]
    · have hnone : (newGroupsFor env d t c1).filter (fun g => decide (g.ProcessClass = c)) = [] := by
        rw [List.filter_eq_nil_iff]
        intro g hg
        simp [newGroupsFor_class env d t c1 g hg, h]
      have hne : ¬ c = c1 := fun hcontra => h hcontra.symm
      simp [hnone, hne]

theorem tally_ok_of_parse (env : ClusterEnv) :
    ∀ (processGroups : List ProcessGroupStatus) (t0 : Tally),
      (∀ g ∈ processGroups, ∃ v, env.ParseProcessGroupID g.ProcessGroupID = .ok v) →
      ∃ t, tally env processGroups t0 = .ok t := by
  intro processGroups
  induction processGroups with
  | nil => intro t0 _; exact ⟨t0, rfl⟩
  | cons g rest ih =>
    intro t0 hp
    obtain ⟨v, hv⟩ := hp g (List.mem_cons_self _ _)
    obtain ⟨pc, num⟩ := v
    simp only [tally, tallyStep, hv]
    exact ih _ (fun g1 hg1 => hp g1 (List.mem_cons_of_mem _ hg1))

theorem newCountOf_tally (env : ClusterEnv) (d : ProcessClass → Int)
    (processGroups : List ProcessGroupStatus) (t : Tally)
    (ht : tally env processGroups Tally.empty = .ok t) (c : ProcessClass) :
    newCountOf d t c = max 0 (d c) - (liveCount processGroups c : Int) := by
  have h := (tally_ok_spec env processGroups Tally.empty t ht).2.1 c
  simp only [newCountOf, h, Tally.empty, zero_add]
  by_cases hneg : d c < 0
  · simp [hneg, max_eq_left (le_of_lt hneg)]
  · simp [hneg, max_eq_right (not_lt.mp hneg)]

theorem isFree_tally (env : ClusterEnv) (processGroups : List ProcessGroupStatus) (t : Tally)
    (ht : tally env processGroups Tally.empty = .ok t) (c : ProcessClass) (i : Int) :
    isFree env t c i = !skipped env processGroups c i := by
  have h := (tally_ok_spec env processGroups Tally.empty t ht).2.2 c i
  simp [isFree, skipped, h, Tally.empty]

/-! ### The whole step -/

theorem reconcile_of_ok (env : ClusterEnv) (processGroups : List ProcessGroupStatus)
    (d : ProcessClass → Int) (t : Tally) (hd : env.GetProcessCountsWithDefaults = .ok d)
    (ht : tally env processGroups Tally.empty = .ok t) :
    (reconcile env processGroups).processGroups =
      processGroups ++ env.ProcessClasses.flatMap (newGroupsFor env d t) ∧
    (reconcile env processGroups).events =
      (env.ProcessClasses.filter (fun c => decide (0 < newCountOf d t c))).map
        (fun c => addingEvent (newCountOf d t c) c) ∧
    (reconcile env processGroups).statusUpdates =
      (if env.ProcessClasses.any (fun c => decide (0 < newCountOf d t c)) then
        [processGroups ++ env.ProcessClasses.flatMap (newGroupsFor env d t)] else []) ∧
    (reconcile env processGroups).result =
      (if env.ProcessClasses.any (fun c => decide (0 < newCountOf d t c)) then
        (env.StatusUpdate (processGroups ++ env.ProcessClasses.flatMap (newGroupsFor env d t))).map
          (fun err => { curError := some err, message := "" })
      else none) := by
  obtain ⟨a1, a2, a3⟩ := foldl_classStep_spec env d t env.ProcessClasses
    { processGroups := processGroups, events := [], hasNewProcessGroups := false }
  simp only [Bool.false_or, List.nil_append] at a1 a2 a3
  unfold reconcile
  simp only [hd, ht]
  split
  · rename_i hnew
    rw [a3] at hnew
    rw [a1, a2]
    cases hu : env.StatusUpdate (processGroups ++ env.ProcessClasses.flatMap (newGroupsFor env d t)) <;>
      simp [hnew]
  · rename_i hnew
    rw [a3] at hnew
    simp [a1, a2, hnew]

theorem reconcile_of_get_error (env : ClusterEnv) (processGroups : List ProcessGroupStatus)
    (err : GoError) (hd : env.GetProcessCountsWithDefaults = .error err) :
    reconcile env processGroups =
      { processGroups := processGroups, events := [], statusUpdates := []
        result := some { curError := some err, message := "" } } := by
  unfold reconcile
  simp only [hd]

theorem reconcile_of_tally_error (env : ClusterEnv) (processGroups : List ProcessGroupStatus)
    (d : ProcessClass → Int) (err : GoError) (hd : env.GetProcessCountsWithDefaults = .ok d)
    (ht : tally env processGroups Tally.empty = .error err) :
    reconcile env processGroups =
      { processGroups := processGroups, events := [], statusUpdates := []
        result := some { curError := some err, message := "" } } := by
  unfold reconcile
  simp only [hd, ht]

theorem appended_of_ok (env : ClusterEnv) (processGroups : List ProcessGroupStatus)
    (d : ProcessClass → Int) (t : Tally) (hd : env.GetProcessCountsWithDefaults = .ok d)
    (ht : tally env processGroups Tally.empty = .ok t) :
    appended env processGroups = env.ProcessClasses.flatMap (newGroupsFor env d t) := by
  unfold appended
  rw [(reconcile_of_ok env processGroups d t hd ht).1]
  exact List.drop_left _ _

theorem newGroupsFor_length (env : ClusterEnv) (d : ProcessClass → Int) (t : Tally)
    (c : ProcessClass) :
    ((newGroupsFor env d t c).length : Int) = max 0 (newCountOf d t c) := by
  unfold newGroupsFor newIndicesFor
  by_cases h : newCountOf d t c ≤ 0
  · simp [h]
  · have h2 : 0 ≤ newCountOf d t c := le_of_lt (not_le.mp h)
    simp [h, pickIndices_length, Int.toNat_of_nonneg h2, max_eq_right h2]

/-- C1: when desired-count derivation and all ID parsing succeed, the step appends,
for a class of the (duplicate-free) declared class list, exactly
`max(0, desired - liveCount)` new groups of that class, a negative desired count
being read as 0 and `liveCount` counting the existing records of the class not
marked for removal; so when `desired ≥ liveCount` the live count plus the newly
allocated groups equals the desired count. -/
theorem reconcile_closes_gap (env : ClusterEnv) (processGroups : List ProcessGroupStatus)
    (desired : ProcessClass → Int) (c : ProcessClass)
    (hd : env.GetProcessCountsWithDefaults = .ok desired)
    (hp : ∀ g ∈ processGroups, ∃ v, env.ParseProcessGroupID g.ProcessGroupID = .ok v)
    (hnd : env.ProcessClasses.Nodup) (hc : c ∈ env.ProcessClasses) :
    (reconcile env processGroups).processGroups = processGroups ++ appended env processGroups ∧
    ((appendedOf env processGroups c).length : Int) =
      max 0 (max 0 (desired c) - (liveCount processGroups c : Int)) ∧
    ((liveCount processGroups c : Int) ≤ desired c →
      (liveCount processGroups c : Int) + ((appendedOf env processGroups c).length : Int)
        = desired c) := by
  obtain ⟨t, ht⟩ := tally_ok_of_parse env processGroups Tally.empty hp
  have happ := appended_of_ok env processGroups desired t hd ht
  have hlen : ((appendedOf env processGroups c).length : Int) =
      max 0 (max 0 (desired c) - (liveCount processGroups c : Int)) := by
    unfold appendedOf
    rw [happ, filter_flatMap_newGroupsFor env desired t c env.ProcessClasses hnd, if_pos hc,
      newGroupsFor_length, newCountOf_tally env desired processGroups t ht c]
  refine ⟨?_, hlen, ?_⟩
  · rw [happ]
    exact (reconcile_of_ok env processGroups desired t hd ht).1
  · intro hle
    rw [hlen]
    have h0 : (0 : Int) ≤ (liveCount processGroups c : Int) := Int.ofNat_nonneg _
    rw [max_eq_right (le_trans h0 hle), max_eq_right (by omega)]
    omega

/-- Witness for C1: the scenario of the spec, one live and one removal-marked storage
group with three desired. -/
theorem reconcile_closes_gap_witness :
    (scenarioEnv storage3 scenarioParsed ["storage-2"]).ProcessClasses.Nodup ∧
    ((appendedOf (scenarioEnv storage3 scenarioParsed ["storage-2"]) scenarioGroups
        "storage").length : Int) =
      max 0 (max 0 (storage3 "storage") - (liveCount scenarioGroups "storage" : Int)) ∧
    (liveCount scenarioGroups "storage" : Int) +
      ((appendedOf (scenarioEnv storage3 scenarioParsed ["storage-2"]) scenarioGroups
        "storage").length : Int) = storage3 "storage" :=
  have h := reconcile_closes_gap (scenarioEnv storage3 scenarioParsed ["storage-2"])
    scenarioGroups storage3 "storage" rfl
    (by
      intro g hg
      simp only [scenarioGroups, List.mem_cons, List.mem_singleton, List.not_mem_nil,
        or_false] at hg
      rcases hg with rfl | rfl
      · exact ⟨("storage", 1), rfl⟩
      · exact ⟨("storage", 2), rfl⟩)
    (by decide) (by decide)
  ⟨by decide, h.2.1, h.2.2 (by decide)⟩

/-! ### Smallest free indices -/

theorem newIndicesFor_smallest (env : ClusterEnv) (processGroups : List ProcessGroupStatus)
    (d : ProcessClass → Int) (t : Tally) (c : ProcessClass) (B : Int)
    (ht : tally env processGroups Tally.empty = .ok t) (hB0 : 1 ≤ B)
    (hB : ∀ i, B ≤ i → skipped env processGroups c i = false)
    (hmax : B + gap d processGroups c ≤ maxInt) :
    SmallestFree (skipped env processGroups c) (newIndicesFor env d t c) ∧
    ((newIndicesFor env d t c).length : Int) = gap d processGroups c ∧
    (∀ i ∈ newIndicesFor env d t c, i < B + gap d processGroups c) := by
  have hn := newCountOf_tally env d processGroups t ht c
  unfold newIndicesFor
  by_cases h : newCountOf d t c ≤ 0
  · rw [if_pos h]
    refine ⟨⟨List.Pairwise.nil, by simp, by simp⟩, ?_, by simp⟩
    unfold gap
    rw [← hn, max_eq_left h]
    rfl
  · rw [if_neg h]
    have h2 : 0 ≤ newCountOf d t c := le_of_lt (not_le.mp h)
    have hg : gap d processGroups c = newCountOf d t c := by
      unfold gap
      rw [← hn, max_eq_right h2]
    have hcast : ((newCountOf d t c).toNat : Int) = newCountOf d t c := Int.toNat_of_nonneg h2
    have hfree : ∀ i, isFree env t c i = !skipped env processGroups c i :=
      isFree_tally env processGroups t ht c
    obtain ⟨p1, p2, p3⟩ := pickIndices_in_range (isFree env t c) (newCountOf d t c).toNat B 1
      (fun i hi => by rw [hfree, hB i hi]; rfl) (by decide) hB0 (by rw [hcast, ← hg]; exact hmax)
    refine ⟨⟨p1, ?_, ?_⟩, ?_, ?_⟩
    · intro i hi
      obtain ⟨a, _, b⟩ := p2 i hi
      rw [hfree] at b
      exact ⟨by omega, by simpa using b⟩
    · intro j hj1 hj2 hj3
      exact p3 j (by omega) (by rw [hfree, hj2]; rfl) hj3
    · rw [pickIndices_length, hcast, hg]
    · intro i hi
      have := (p2 i hi).2.1
      rw [hcast] at this
      rw [hg]
      exact this

/-- C2 (as amended): for a class of the declared class list that needs `gap > 0` new
groups, the indices the step assigns are exactly the `gap` smallest positive
integers that are neither claimed by an existing record of the class (live or
marked for removal) nor carried by an ID reported as being removed, assigned in
strictly ascending order, as long as those indices lie inside the range of `int`
(all skipped indices are below a bound `B` with `B + gap ≤ maxInt`). -/
theorem reconcile_assigns_smallest_free (env : ClusterEnv)
    (processGroups : List ProcessGroupStatus) (desired : ProcessClass → Int)
    (c : ProcessClass) (B : Int)
    (hd : env.GetProcessCountsWithDefaults = .ok desired)
    (hp : ∀ g ∈ processGroups, ∃ v, env.ParseProcessGroupID g.ProcessGroupID = .ok v)
    (hnd : env.ProcessClasses.Nodup) (hc : c ∈ env.ProcessClasses)
    (_hgap : 0 < gap desired processGroups c) (hB0 : 1 ≤ B)
    (hB : ∀ i, B ≤ i → skipped env processGroups c i = false)
    (hmax : B + gap desired processGroups c ≤ maxInt) :
    ∃ idxs : List Int,
      appendedOf env processGroups c =
        idxs.map (fun i => NewProcessGroupStatus (env.GetProcessGroupID c i) c) ∧
      (idxs.length : Int) = gap desired processGroups c ∧
      SmallestFree (skipped env processGroups c) idxs := by
  obtain ⟨t, ht⟩ := tally_ok_of_parse env processGroups Tally.empty hp
  obtain ⟨s1, s2, _⟩ := newIndicesFor_smallest env processGroups desired t c B ht hB0 hB hmax
  refine ⟨newIndicesFor env desired t c, ?_, s2, s1⟩
  unfold appendedOf
  rw [appended_of_ok env processGroups desired t hd ht,
    filter_flatMap_newGroupsFor env desired t c env.ProcessClasses hnd, if_pos hc]
  rfl

theorem scenario_skipped_above (c : ProcessClass) (i : Int) (hi : 3 ≤ i) :
    skipped (scenarioEnv storage3 scenarioParsed []) scenarioGroups c i = false := by
  have h1 : ¬ (1 : Int) = i := by omega
  have h2 : ¬ (2 : Int) = i := by omega
  have p1 : parsedNum (scenarioEnv storage3 scenarioParsed [])
      { ProcessGroupID := "storage-1", ProcessClass := "storage", ProcessGroupConditions := []
        Remove := false, Excluded := false } = some 1 := rfl
  have p2 : parsedNum (scenarioEnv storage3 scenarioParsed [])
      { ProcessGroupID := "storage-2", ProcessClass := "storage", ProcessGroupConditions := []
        Remove := true, Excluded := false } = some 2 := rfl
  have hrem : ∀ s, (scenarioEnv storage3 scenarioParsed []).ProcessGroupIsBeingRemoved s
      = false := fun _ => rfl
  simp [skipped, claimed, scenarioGroups, p1, p2, h1, h2, hrem]

/-- Witness for C2: the scenario of the spec. With desired `{storage: 3}`, `storage/1`
live and `storage/2` marked for removal, the step assigns `storage/3` and
`storage/4`, whether or not `storage-2` is also reported as being removed. -/
theorem reconcile_assigns_smallest_free_witness :
    (0 < gap storage3 scenarioGroups "storage" ∧
      (3 : Int) + gap storage3 scenarioGroups "storage" ≤ maxInt) ∧
    (∃ idxs : List Int,
      appendedOf (scenarioEnv storage3 scenarioParsed []) scenarioGroups "storage" =
        idxs.map (fun i => NewProcessGroupStatus
          ((scenarioEnv storage3 scenarioParsed []).GetProcessGroupID "storage" i) "storage") ∧
      (idxs.length : Int) = gap storage3 scenarioGroups "storage" ∧
      SmallestFree (skipped (scenarioEnv storage3 scenarioParsed []) scenarioGroups "storage")
        idxs) ∧
    appendedOf (scenarioEnv storage3 scenarioParsed []) scenarioGroups "storage" =
      [NewProcessGroupStatus "storage-3" "storage", NewProcessGroupStatus "storage-4" "storage"] ∧
    appendedOf (scenarioEnv storage3 scenarioParsed ["storage-2"]) scenarioGroups "storage" =
      [NewProcessGroupStatus "storage-3" "storage", NewProcessGroupStatus "storage-4" "storage"] :=
  ⟨⟨by decide, by decide⟩,
    reconcile_assigns_smallest_free (scenarioEnv storage3 scenarioParsed []) scenarioGroups
      storage3 "storage" 3 rfl
      (by
        intro g hg
        simp only [scenarioGroups, List.mem_cons, List.mem_singleton, List.not_mem_nil,
          or_false] at hg
        rcases hg with rfl | rfl
        · exact ⟨("storage", 1), rfl⟩
        · exact ⟨("storage", 2), rfl⟩)
      (by decide) (by decide) (by decide) (by decide) (scenario_skipped_above "storage") (by decide),
    by decide, by decide⟩

/-- Counterexample to C2 as stated: with no existing record, one storage group desired
and the ID `storage-1` reported as being removed, the step assigns `storage-2`,
although index 1 is positive and claimed by no existing record. -/
theorem reconcile_smallest_unclaimed_counterexample :
    appendedOf (scenarioEnv storage1 [] ["storage-1"]) [] "storage" =
      [NewProcessGroupStatus "storage-2" "storage"] ∧
    ¬ ∃ idxs : List Int,
      appendedOf (scenarioEnv storage1 [] ["storage-1"]) [] "storage" =
        idxs.map (fun i => NewProcessGroupStatus
          ((scenarioEnv storage1 [] ["storage-1"]).GetProcessGroupID "storage" i) "storage") ∧
      (idxs.length : Int) = gap storage1 [] "storage" ∧
      SmallestFree (claimed (scenarioEnv storage1 [] ["storage-1"]) [] "storage") idxs := by
  have happ : appendedOf (scenarioEnv storage1 [] ["storage-1"]) [] "storage" =
      [NewProcessGroupStatus "storage-2" "storage"] := by decide
  refine ⟨happ, ?_⟩
  rintro ⟨idxs, h1, _, _, h3, h4⟩
  rw [happ] at h1
  match idxs, h1, h3, h4 with
  | [], h1, _, _ => simp at h1
  | [i], h1, h3, h4 =>
    have hpos : 0 < i := (h3 i (List.mem_singleton_self i)).1
    have hne : i ≠ 1 := by
      intro h
      subst h
      revert h1
      decide
    have hlt : i < 1 := h4 1 (by decide) rfl (by simpa using hne.symm) i (List.mem_singleton_self i)
    omega
  | _ :: _ :: _, h1, _, _ => simp at h1

/-! ### Index uniqueness -/

theorem mem_keysOf_iff (env : ClusterEnv) (processGroups : List ProcessGroupStatus)
    (c : ProcessClass) (n : Int) :
    (c, n) ∈ keysOf env processGroups ↔ claimed env processGroups c n = true := by
  simp only [keysOf, claimed, List.mem_filterMap, List.any_eq_true, Option.map_eq_some',
    Prod.mk.injEq, Bool.decide_and, Bool.and_eq_true, decide_eq_true_eq]
  constructor
  · rintro ⟨g, hg, m, hm, hc, rfl⟩
    exact ⟨g, hg, hc, hm⟩
  · rintro ⟨g, hg, hc, hm⟩
    exact ⟨g, hg, n, hm, hc, rfl⟩

theorem claimed_false_of_skipped_false (env : ClusterEnv)
    (processGroups : List ProcessGroupStatus) (c : ProcessClass) (n : Int)
    (h : skipped env processGroups c n = false) : claimed env processGroups c n = false := by
  unfold skipped at h
  rw [Bool.or_eq_false_iff] at h
  exact h.2

theorem newKeys_nodup (classes : List ProcessClass) (idxs : ProcessClass → List Int)
    (hnd : classes.Nodup) (hidx : ∀ c ∈ classes, (idxs c).Nodup) :
    (classes.flatMap (fun c => (idxs c).map (fun i => (c, i)))).Nodup := by
  rw [List.nodup_flatMap]
  refine ⟨?_, ?_⟩
  · intro c hc
    refine (hidx c hc).map ?_
    intro a b hab
    exact (Prod.mk.inj hab).2
  · refine List.Pairwise.imp ?_ hnd
    intro a b hab k hka hkb
    simp only [List.mem_map] at hka hkb
    obtain ⟨i, _, rfl⟩ := hka
    obtain ⟨j, _, hj⟩ := hkb
    exact hab (Prod.mk.inj hj).1.symm

/-- C3: the step preserves index uniqueness within a class. When no two existing
records of the same class share a numeric index, the process-group list after
the step is the old list followed by new groups whose (class, index) keys are
distinct from each other and from the keys of all existing records, live or
marked for removal; in particular no new group reuses the index of a record of
its class that still exists. The declared class list is duplicate-free and the
scan stays inside the range of `int`. -/
theorem reconcile_preserves_unique_indices (env : ClusterEnv)
    (processGroups : List ProcessGroupStatus) (B : Int)
    (hnd : env.ProcessClasses.Nodup)
    (huniq : (keysOf env processGroups).Nodup)
    (hB0 : 1 ≤ B)
    (hB : ∀ c ∈ env.ProcessClasses, ∀ i, B ≤ i → skipped env processGroups c i = false)
    (hmax : ∀ d, env.GetProcessCountsWithDefaults = .ok d →
      ∀ c ∈ env.ProcessClasses, B + gap d processGroups c ≤ maxInt) :
    ∃ newKeys : List (ProcessClass × Int),
      (reconcile env processGroups).processGroups = processGroups ++
        newKeys.map (fun k => NewProcessGroupStatus (env.GetProcessGroupID k.1 k.2) k.1) ∧
      (keysOf env processGroups ++ newKeys).Nodup ∧
      (∀ k ∈ newKeys, ∀ g ∈ processGroups,
        g.ProcessClass = k.1 → parsedNum env g ≠ some k.2) := by
  cases hd : env.GetProcessCountsWithDefaults with
  | error err =>
    refine ⟨[], ?_, by simpa using huniq, by simp⟩
    rw [reconcile_of_get_error env processGroups err hd]
    simp
  | ok d =>
    cases ht : tally env processGroups Tally.empty with
    | error err =>
      refine ⟨[], ?_, by simpa using huniq, by simp⟩
      rw [reconcile_of_tally_error env processGroups d err hd ht]
      simp
    | ok t =>
      have hsm : ∀ c ∈ env.ProcessClasses,
          SmallestFree (skipped env processGroups c) (newIndicesFor env d t c) :=
        fun c hc => (newIndicesFor_smallest env processGroups d t c B ht hB0 (hB c hc)
          (hmax d hd c hc)).1
      have hfresh : ∀ k ∈ env.ProcessClasses.flatMap
          (fun c => (newIndicesFor env d t c).map (fun i => (c, i))),
          claimed env processGroups k.1 k.2 = false := by
        intro k hk
        simp only [List.mem_flatMap, List.mem_map] at hk
        obtain ⟨c, hc, i, hi, rfl⟩ := hk
        exact claimed_false_of_skipped_false env processGroups c i ((hsm c hc).2.1 i hi).2
      refine ⟨env.ProcessClasses.flatMap
        (fun c => (newIndicesFor env d t c).map (fun i => (c, i))), ?_, ?_, ?_⟩
      · rw [(reconcile_of_ok env processGroups d t hd ht).1, List.map_flatMap]
        congr 1
        simp only [newGroupsFor, List.map_map]
        rfl
      · refine List.Nodup.append huniq ?_ ?_
        · refine newKeys_nodup env.ProcessClasses (newIndicesFor env d t) hnd ?_
          intro c hc
          exact (hsm c hc).1.imp (fun h => ne_of_lt h)
        · intro k hk1 hk2
          have h1 := (mem_keysOf_iff env processGroups k.1 k.2).mp hk1
          rw [hfresh k hk2] at h1
          exact absurd h1 (by decide)
      · intro k hk g hg hc hn
        have h1 := hfresh k hk
        have h2 : claimed env processGroups k.1 k.2 = true := by
          simp only [claimed, List.any_eq_true, Bool.decide_and, Bool.and_eq_true,
            decide_eq_true_eq]
          exact ⟨g, hg, hc, hn⟩
        rw [h1] at h2
        exact absurd h2 (by decide)

/-- Witness for C3: the scenario of the spec; the keys after the step are
storage/1, storage/2 (still reserved), storage/3 and storage/4. -/
theorem reconcile_preserves_unique_indices_witness :
    ((scenarioEnv storage3 scenarioParsed []).ProcessClasses.Nodup ∧
      (keysOf (scenarioEnv storage3 scenarioParsed []) scenarioGroups).Nodup) ∧
    (∃ newKeys : List (ProcessClass × Int),
      (reconcile (scenarioEnv storage3 scenarioParsed []) scenarioGroups).processGroups =
        scenarioGroups ++ newKeys.map (fun k => NewProcessGroupStatus
          ((scenarioEnv storage3 scenarioParsed []).GetProcessGroupID k.1 k.2) k.1) ∧
      (keysOf (scenarioEnv storage3 scenarioParsed []) scenarioGroups ++ newKeys).Nodup ∧
      (∀ k ∈ newKeys, ∀ g ∈ scenarioGroups, g.ProcessClass = k.1 →
        parsedNum (scenarioEnv storage3 scenarioParsed []) g ≠ some k.2)) ∧
    keysOf (scenarioEnv storage3 scenarioParsed [])
      (reconcile (scenarioEnv storage3 scenarioParsed []) scenarioGroups).processGroups =
      [("storage", 1), ("storage", 2), ("storage", 3), ("storage", 4)] :=
  ⟨⟨by decide, by decide⟩,
    reconcile_preserves_unique_indices (scenarioEnv storage3 scenarioParsed []) scenarioGroups 3
      (by decide) (by decide) (by decide)
      (fun c _ i hi => scenario_skipped_above c i hi)
      (by
        intro d hd
        have hd2 : storage3 = d := by
          simp only [scenarioEnv, Except.ok.injEq] at hd
          exact hd
        subst hd2
        decide),
    by decide⟩

/-! ### Abort on error -/

theorem tally_error_at (env : ClusterEnv) (g : ProcessGroupStatus)
    (post : List ProcessGroupStatus) (err : GoError)
    (hg : env.ParseProcessGroupID g.ProcessGroupID = .error err) :
    ∀ (pre : List ProcessGroupStatus) (t0 : Tally),
      (∀ x ∈ pre, ∃ v, env.ParseProcessGroupID x.ProcessGroupID = .ok v) →
      tally env (pre ++ g :: post) t0 = .error err := by
  intro pre
  induction pre with
  | nil =>
    intro t0 _
    simp [tally, tallyStep, hg]
  | cons x rest ih =>
    intro t0 hpre
    obtain ⟨v, hv⟩ := hpre x (List.mem_cons_self _ _)
    obtain ⟨pc, num⟩ := v
    simp only [List.cons_append, tally, tallyStep, hv]
    exact ih _ (fun y hy => hpre y (List.mem_cons_of_mem _ hy))

theorem first_unparsable (env : ClusterEnv) :
    ∀ (processGroups : List ProcessGroupStatus),
      (∃ g ∈ processGroups, ∃ e, env.ParseProcessGroupID g.ProcessGroupID = .error e) →
      ∃ pre g post err, processGroups = pre ++ g :: post ∧
        (∀ x ∈ pre, ∃ v, env.ParseProcessGroupID x.ProcessGroupID = .ok v) ∧
        env.ParseProcessGroupID g.ProcessGroupID = .error err := by
  intro processGroups
  induction processGroups with
  | nil =>
    rintro ⟨g, hg, _⟩
    simp at hg
  | cons x rest ih =>
    rintro ⟨g, hg, e, he⟩
    cases hx : env.ParseProcessGroupID x.ProcessGroupID with
    | error err => exact ⟨[], x, rest, err, rfl, by simp, hx⟩
    | ok v =>
      have hrest : ∃ g ∈ rest, ∃ e, env.ParseProcessGroupID g.ProcessGroupID = .error e := by
        rw [List.mem_cons] at hg
        rcases hg with rfl | hg
        · rw [hx] at he
          cases he
        · exact ⟨g, hg, e, he⟩
      obtain ⟨pre, g1, post, err, h1, h2, h3⟩ := ih hrest
      refine ⟨x :: pre, g1, post, err, by rw [h1]; rfl, ?_, h3⟩
      intro y hy
      rw [List.mem_cons] at hy
      rcases hy with rfl | hy
      · exact ⟨v, hx⟩
      · exact h2 y hy

/-- C4: if `GetProcessCountsWithDefaults` fails, or if the ID of any existing process
group cannot be parsed, the step returns a non-nil requeue signal carrying the
error (that of the derivation, or else that of the first record whose ID does
not parse, wherever it sits in the list) and leaves the state unchanged: the
process-group list is the input, no status update is issued and no event is
emitted. -/
theorem reconcile_aborts_on_error (env : ClusterEnv) (processGroups : List ProcessGroupStatus)
    (h : (∃ err, env.GetProcessCountsWithDefaults = .error err) ∨
      (∃ g ∈ processGroups, ∃ e, env.ParseProcessGroupID g.ProcessGroupID = .error e)) :
    ∃ err : GoError,
      reconcile env processGroups =
        { processGroups := processGroups, events := [], statusUpdates := []
          result := some { curError := some err, message := "" } } ∧
      (env.GetProcessCountsWithDefaults = .error err ∨
        ∃ pre g post, processGroups = pre ++ g :: post ∧
          (∀ x ∈ pre, ∃ v, env.ParseProcessGroupID x.ProcessGroupID = .ok v) ∧
          env.ParseProcessGroupID g.ProcessGroupID = .error err) := by
  cases hd : env.GetProcessCountsWithDefaults with
  | error err =>
    exact ⟨err, reconcile_of_get_error env processGroups err hd, Or.inl rfl⟩
  | ok d =>
    rcases h with ⟨err, h⟩ | h
    · rw [hd] at h
      cases h
    · obtain ⟨pre, g, post, err, hsplit, hpre, hg⟩ := first_unparsable env processGroups h
      refine ⟨err, ?_, Or.inr ⟨pre, g, post, hsplit, hpre, hg⟩⟩
      apply reconcile_of_tally_error env processGroups d err hd
      rw [hsplit]
      exact tally_error_at env g post err hg pre Tally.empty hpre

/-- Witness for C4: an unparsable ID between two good records aborts the step with a
parse error and leaves everything as it was. -/
theorem reconcile_aborts_on_error_witness :
    (scenarioEnv storage3 scenarioParsed []).ParseProcessGroupID "garbage" =
      .error "could not parse process group ID garbage" ∧
    (∃ err : GoError,
      reconcile (scenarioEnv storage3 scenarioParsed []) corruptGroups =
        { processGroups := corruptGroups, events := [], statusUpdates := []
          result := some { curError := some err, message := "" } } ∧
      ((scenarioEnv storage3 scenarioParsed []).GetProcessCountsWithDefaults = .error err ∨
        ∃ pre g post, corruptGroups = pre ++ g :: post ∧
          (∀ x ∈ pre, ∃ v, (scenarioEnv storage3 scenarioParsed []).ParseProcessGroupID
            x.ProcessGroupID = .ok v) ∧
          (scenarioEnv storage3 scenarioParsed []).ParseProcessGroupID g.ProcessGroupID =
            .error err)) ∧
    reconcile (scenarioEnv storage3 scenarioParsed []) corruptGroups =
      { processGroups := corruptGroups, events := [], statusUpdates := []
        result := some { curError := some "could not parse process group ID garbage"
                         message := "" } } :=
  ⟨rfl, reconcile_aborts_on_error (scenarioEnv storage3 scenarioParsed []) corruptGroups
    (Or.inr ⟨{ ProcessGroupID := "garbage", ProcessClass := "storage"
               ProcessGroupConditions := [], Remove := false, Excluded := false },
      by decide, "could not parse process group ID garbage", rfl⟩),
    by decide⟩

/-! ### Frame of the allocation step -/

/-- C16: the step only appends. For every input the process-group list after the step is
the input list, every record unchanged and in the same order, followed by the
new groups, grouped by class in the order of the declared class list: one
segment per entry of the class list, every record of a segment being a fresh
record of that class. -/
theorem reconcile_only_appends (env : ClusterEnv) (processGroups : List ProcessGroupStatus) :
    ∃ seg : ProcessClass → List ProcessGroupStatus,
      (reconcile env processGroups).processGroups =
        processGroups ++ env.ProcessClasses.flatMap seg ∧
      (∀ c, ∀ g ∈ seg c, g = NewProcessGroupStatus g.ProcessGroupID c) ∧
      (reconcile env processGroups).processGroups.take processGroups.length = processGroups := by
  cases hd : env.GetProcessCountsWithDefaults with
  | error err =>
    refine ⟨fun _ => [], ?_, by simp, ?_⟩
    · rw [reconcile_of_get_error env processGroups err hd]
      simp
    · rw [reconcile_of_get_error env processGroups err hd]
      simp
  | ok d =>
    cases ht : tally env processGroups Tally.empty with
    | error err =>
      refine ⟨fun _ => [], ?_, by simp, ?_⟩
      · rw [reconcile_of_tally_error env processGroups d err hd ht]
        simp
      · rw [reconcile_of_tally_error env processGroups d err hd ht]
        simp
    | ok t =>
      refine ⟨newGroupsFor env d t, (reconcile_of_ok env processGroups d t hd ht).1, ?_, ?_⟩
      · intro c g hg
        simp only [newGroupsFor, List.mem_map] at hg
        obtain ⟨i, _, rfl⟩ := hg
        rfl
      · rw [(reconcile_of_ok env processGroups d t hd ht).1]
        exact List.take_left _ _

/-! ### Idempotent re-entry -/

theorem liveCount_append (a b : List ProcessGroupStatus) (c : ProcessClass) :
    liveCount (a ++ b) c = liveCount a c + liveCount b c := by
  simp [liveCount, List.filter_append]

theorem liveCount_newGroupsFor (env : ClusterEnv) (d : ProcessClass → Int) (t : Tally)
    (c : ProcessClass) :
    liveCount (newGroupsFor env d t c) c = (newGroupsFor env d t c).length := by
  unfold liveCount
  rw [List.filter_eq_self.mpr]
  intro g hg
  simp only [newGroupsFor, List.mem_map] at hg
  obtain ⟨i, _, rfl⟩ := hg
  simp [NewProcessGroupStatus]

theorem liveCount_flatMap_ge (env : ClusterEnv) (d : ProcessClass → Int) (t : Tally)
    (c : ProcessClass) :
    ∀ (classes : List ProcessClass), c ∈ classes →
      (newGroupsFor env d t c).length ≤
        liveCount (classes.flatMap (newGroupsFor env d t)) c := by
  intro classes
  induction classes with
  | nil => intro h; simp at h
  | cons c1 rest ih =>
    intro h
    rw [List.flatMap_cons, liveCount_append]
    rw [List.mem_cons] at h
    rcases h with rfl | h
    · rw [liveCount_newGroupsFor]
      exact Nat.le_add_right _ _
    · exact le_trans (ih h) (Nat.le_add_left _ _)

theorem reconcile_of_no_growth (env : ClusterEnv) (processGroups : List ProcessGroupStatus)
    (d : ProcessClass → Int) (t : Tally) (hd : env.GetProcessCountsWithDefaults = .ok d)
    (ht : tally env processGroups Tally.empty = .ok t)
    (hno : ∀ c ∈ env.ProcessClasses, newCountOf d t c ≤ 0) :
    reconcile env processGroups =
      { processGroups := processGroups, events := [], statusUpdates := [], result := none } := by
  obtain ⟨r1, r2, r3, r4⟩ := reconcile_of_ok env processGroups d t hd ht
  have hany : ¬ env.ProcessClasses.any (fun c => decide (0 < newCountOf d t c)) = true := by
    rw [List.any_eq_true]
    rintro ⟨c, hc, hpos⟩
    have := hno c hc
    simp only [decide_eq_true_eq] at hpos
    omega
  have hnil : env.ProcessClasses.flatMap (newGroupsFor env d t) = [] := by
    rw [List.flatMap_eq_nil_iff]
    intro c hc
    simp [newGroupsFor, newIndicesFor, hno c hc]
  have hfilter : env.ProcessClasses.filter (fun c => decide (0 < newCountOf d t c)) = [] := by
    rw [List.filter_eq_nil_iff]
    intro c hc
    have := hno c hc
    simp only [decide_eq_true_eq]
    omega
  rw [hnil, List.append_nil] at r1
  rw [hfilter, List.map_nil] at r2
  rw [if_neg hany] at r3 r4
  rcases hr : reconcile env processGroups with ⟨pg, ev, su, res⟩
  rw [hr] at r1 r2 r3 r4
  simp only at r1 r2 r3 r4
  rw [r1, r2, r3, r4]

/-- C13: idempotent re-entry. When a run of the step completes with a `nil` signal and
the IDs it gave the new groups parse, running the step again on the resulting
process-group list with the same desired counts appends no process group,
issues no status update, emits no event and again returns `nil`. -/
theorem reconcile_idempotent (env : ClusterEnv) (processGroups : List ProcessGroupStatus)
    (hnil : (reconcile env processGroups).result = none)
    (hparse : ∀ g ∈ appended env processGroups,
      ∃ v, env.ParseProcessGroupID g.ProcessGroupID = .ok v) :
    reconcile env (reconcile env processGroups).processGroups =
      { processGroups := (reconcile env processGroups).processGroups, events := []
        statusUpdates := [], result := none } := by
  cases hd : env.GetProcessCountsWithDefaults with
  | error err =>
    rw [reconcile_of_get_error env processGroups err hd] at hnil
    simp at hnil
  | ok d =>
    cases ht : tally env processGroups Tally.empty with
    | error err =>
      rw [reconcile_of_tally_error env processGroups d err hd ht] at hnil
      simp at hnil
    | ok t =>
      have hout := (reconcile_of_ok env processGroups d t hd ht).1
      have happ := appended_of_ok env processGroups d t hd ht
      rw [happ] at hparse
      have hold : ∀ g ∈ processGroups, ∃ v, env.ParseProcessGroupID g.ProcessGroupID = .ok v := by
        intro g hg
        have hnone := (tally_ok_spec env processGroups Tally.empty t ht).1 g hg
        unfold parseError at hnone
        cases hp : env.ParseProcessGroupID g.ProcessGroupID with
        | error e => simp [hp] at hnone
        | ok v => exact ⟨v, rfl⟩
      have hall : ∀ g ∈ processGroups ++ env.ProcessClasses.flatMap (newGroupsFor env d t),
          ∃ v, env.ParseProcessGroupID g.ProcessGroupID = .ok v := by
        intro g hg
        rw [List.mem_append] at hg
        rcases hg with hg | hg
        · exact hold g hg
        · exact hparse g hg
      obtain ⟨t2, ht2⟩ := tally_ok_of_parse env _ Tally.empty hall
      rw [hout]
      apply reconcile_of_no_growth env _ d t2 hd ht2
      intro c hc
      rw [newCountOf_tally env d _ t2 ht2 c, liveCount_append]
      have h1 := newCountOf_tally env d processGroups t ht c
      have h2 := newGroupsFor_length env d t c
      have h3 := liveCount_flatMap_ge env d t c env.ProcessClasses hc
      have h4 : ((newGroupsFor env d t c).length : Int) ≤
          (liveCount (env.ProcessClasses.flatMap (newGroupsFor env d t)) c : Int) :=
        Int.ofNat_le.mpr h3
      have h5 : newCountOf d t c ≤ max 0 (newCountOf d t c) := le_max_right _ _
      push_cast
      omega

/-- Witness for C13: the scenario of the spec. The first run adds `storage-3` and
`storage-4`; the second run changes nothing. -/
theorem reconcile_idempotent_witness :
    (reconcile (scenarioEnv storage3 scenarioParsed ["storage-2"]) scenarioGroups).result = none ∧
    appended (scenarioEnv storage3 scenarioParsed ["storage-2"]) scenarioGroups =
      [NewProcessGroupStatus "storage-3" "storage", NewProcessGroupStatus "storage-4" "storage"] ∧
    reconcile (scenarioEnv storage3 scenarioParsed ["storage-2"])
        (reconcile (scenarioEnv storage3 scenarioParsed ["storage-2"]) scenarioGroups).processGroups =
      { processGroups :=
          (reconcile (scenarioEnv storage3 scenarioParsed ["storage-2"]) scenarioGroups).processGroups
        events := [], statusUpdates := [], result := none } :=
  have happ : appended (scenarioEnv storage3 scenarioParsed ["storage-2"]) scenarioGroups =
      [NewProcessGroupStatus "storage-3" "storage", NewProcessGroupStatus "storage-4" "storage"] := by
    decide
  ⟨by decide, happ,
    reconcile_idempotent (scenarioEnv storage3 scenarioParsed ["storage-2"]) scenarioGroups
      (by decide)
      (by
        intro g hg
        rw [happ] at hg
        simp only [List.mem_cons, List.mem_singleton, List.not_mem_nil, or_false] at hg
        rcases hg with rfl | rfl
        · exact ⟨("storage", 3), rfl⟩
        · exact ⟨("storage", 4), rfl⟩)⟩

/-! ### Bounded scan -/

theorem exists_free_within (free : Int → Bool) (S : Finset Int) (idNum : Int)
    (hS : ∀ i, idNum ≤ i → free i = false → i ∈ S) :
    ∃ j, idNum ≤ j ∧ j ≤ idNum + (S.card : Int) ∧ free j = true := by
  by_contra hno
  have hsub : Finset.Icc idNum (idNum + (S.card : Int)) ⊆ S := by
    intro j hj
    rw [Finset.mem_Icc] at hj
    apply hS j hj.1
    cases hf : free j with
    | false => rfl
    | true => exact absurd ⟨j, hj.1, hj.2, hf⟩ hno
  have hcard := Finset.card_le_card hsub
  rw [Int.card_Icc] at hcard
  have hnat : (idNum + (S.card : Int) + 1 - idNum).toNat = S.card + 1 := by
    have : idNum + (S.card : Int) + 1 - idNum = ((S.card + 1 : Nat) : Int) := by
      push_cast
      ring
    rw [this, Int.toNat_ofNat]
  rw [hnat] at hcard
  omega

theorem card_above_add_skipped (free : Int → Bool) (S : Finset Int) (idNum r : Int)
    (hle : idNum ≤ r) (hS : ∀ i, idNum ≤ i → free i = false → i ∈ S)
    (hskip : ∀ k, idNum ≤ k → k < r → free k = false) :
    ((S.filter (fun i => r < i)).card : Int) + (r - idNum) ≤ (S.card : Int) := by
  have hsub : (S.filter (fun i => r < i)) ∪ Finset.Ico idNum r ⊆ S := by
    intro k hk
    rw [Finset.mem_union] at hk
    rcases hk with hk | hk
    · exact (Finset.mem_filter.mp hk).1
    · rw [Finset.mem_Ico] at hk
      exact hS k hk.1 (hskip k hk.1 hk.2)
  have hdisj : Disjoint (S.filter (fun i => r < i)) (Finset.Ico idNum r) := by
    rw [Finset.disjoint_left]
    intro k hk1 hk2
    have h1 := (Finset.mem_filter.mp hk1).2
    have h2 := (Finset.mem_Ico.mp hk2).2
    omega
  have hcard := Finset.card_le_card hsub
  rw [Finset.card_union_of_disjoint hdisj, Int.card_Ico] at hcard
  have hcast : (((S.filter (fun i => r < i)).card + (r - idNum).toNat : Nat) : Int) ≤
      (S.card : Int) := Int.ofNat_le.mpr hcard
  push_cast at hcast
  rw [Int.toNat_of_nonneg (by omega)] at hcast
  exact hcast

theorem pickIndices_bounded (free : Int → Bool) :
    ∀ (n : Nat) (S : Finset Int) (idNum : Int), 0 < idNum →
      (∀ i, idNum ≤ i → free i = false → i ∈ S) →
      idNum + (S.card : Int) + (n : Int) ≤ maxInt + 1 →
      ∀ i ∈ pickIndices free n idNum,
        idNum ≤ i ∧ i < idNum + (S.card : Int) + (n : Int) ∧ free i = true := by
  intro n
  induction n with
  | zero =>
    intro S idNum _ _ _ i hi
    simp [pickIndices] at hi
  | succ n ih =>
    intro S idNum h0 hS hmax i hi
    push_cast at hmax
    obtain ⟨j, hj1, hj2, hj3⟩ := exists_free_within free S idNum hS
    obtain ⟨s1, s2, s3, s4⟩ := scan_first_free free idNum j h0 hj1 hj3 (by omega)
    have hcount := card_above_add_skipped free S idNum (scan free idNum) s1 hS s4
    simp only [pickIndices, List.mem_cons] at hi
    rcases hi with rfl | hi
    · refine ⟨s1, ?_, s3⟩
      push_cast
      omega
    · cases n with
      | zero => simp [pickIndices] at hi
      | succ m =>
        push_cast at hmax
        have hinc : incr (scan free idNum) = scan free idNum + 1 :=
          incr_eq_add_one _ (by omega) (by omega)
        rw [hinc] at hi
        obtain ⟨a, b, c⟩ := ih (S.filter (fun k => scan free idNum < k)) (scan free idNum + 1)
          (by omega)
          (fun k hk hf => Finset.mem_filter.mpr ⟨hS k (by omega) hf, by omega⟩)
          (by push_cast; omega) i hi
        refine ⟨by omega, ?_, c⟩
        push_cast at b ⊢
        omega

/-! ### Status updates and events -/

theorem newGroupsFor_ne_nil_iff (env : ClusterEnv) (d : ProcessClass → Int) (t : Tally)
    (c : ProcessClass) : newGroupsFor env d t c ≠ [] ↔ 0 < newCountOf d t c := by
  have h := newGroupsFor_length env d t c
  rw [← List.length_pos, ← Int.ofNat_lt, h]
  constructor
  · intro h1
    by_contra h2
    rw [max_eq_left (not_lt.mp h2)] at h1
    exact absurd h1 (lt_irrefl _)
  · intro h1
    exact lt_of_lt_of_le h1 (le_max_right _ _)

theorem appendedOf_of_ok (env : ClusterEnv) (processGroups : List ProcessGroupStatus)
    (d : ProcessClass → Int) (t : Tally) (hd : env.GetProcessCountsWithDefaults = .ok d)
    (ht : tally env processGroups Tally.empty = .ok t) (hnd : env.ProcessClasses.Nodup)
    (c : ProcessClass) (hc : c ∈ env.ProcessClasses) :
    appendedOf env processGroups c = newGroupsFor env d t c := by
  unfold appendedOf
  rw [appended_of_ok env processGroups d t hd ht,
    filter_flatMap_newGroupsFor env d t c env.ProcessClasses hnd, if_pos hc]

theorem appendedOf_of_unchanged (env : ClusterEnv) (processGroups : List ProcessGroupStatus)
    (c : ProcessClass) (h : (reconcile env processGroups).processGroups = processGroups) :
    appendedOf env processGroups c = [] := by
  simp [appendedOf, appended, h]

/-- C5: in one run of the step (declared class list duplicate-free) the status is
persisted at most once: exactly one status update, carrying the whole
process-group list with the new groups of all classes, is issued when at least
one class received new groups, and none when no class did; and the events
emitted are, in the order of the declared class list, exactly one "Adding n c
processes" event for each class `c` that received new groups, `n` being the
number of groups it received, and none for the other classes. -/
theorem reconcile_single_update (env : ClusterEnv) (processGroups : List ProcessGroupStatus)
    (hnd : env.ProcessClasses.Nodup) :
    (reconcile env processGroups).statusUpdates.length ≤ 1 ∧
    ((∃ c ∈ env.ProcessClasses, appendedOf env processGroups c ≠ []) →
      (reconcile env processGroups).statusUpdates =
        [(reconcile env processGroups).processGroups]) ∧
    ((∀ c ∈ env.ProcessClasses, appendedOf env processGroups c = []) →
      (reconcile env processGroups).statusUpdates = []) ∧
    (reconcile env processGroups).events =
      (env.ProcessClasses.filter (fun c => decide (appendedOf env processGroups c ≠ []))).map
        (fun c => addingEvent ((appendedOf env processGroups c).length : Int) c) := by
  have hunchanged : ∀ err : GoError, reconcile env processGroups =
      { processGroups := processGroups, events := [], statusUpdates := []
        result := some { curError := some err, message := "" } } →
      (reconcile env processGroups).statusUpdates.length ≤ 1 ∧
      ((∃ c ∈ env.ProcessClasses, appendedOf env processGroups c ≠ []) →
        (reconcile env processGroups).statusUpdates =
          [(reconcile env processGroups).processGroups]) ∧
      ((∀ c ∈ env.ProcessClasses, appendedOf env processGroups c = []) →
        (reconcile env processGroups).statusUpdates = []) ∧
      (reconcile env processGroups).events =
        (env.ProcessClasses.filter (fun c => decide (appendedOf env processGroups c ≠ []))).map
          (fun c => addingEvent ((appendedOf env processGroups c).length : Int) c) := by
    intro err hr
    have hnil : ∀ c, appendedOf env processGroups c = [] := fun c =>
      appendedOf_of_unchanged env processGroups c (by rw [hr])
    refine ⟨by rw [hr]; simp, ?_, fun _ => by rw [hr], ?_⟩
    · rintro ⟨c, _, hne⟩
      exact absurd (hnil c) hne
    · simp [hnil, hr]
  cases hd : env.GetProcessCountsWithDefaults with
  | error err => exact hunchanged err (reconcile_of_get_error env processGroups err hd)
  | ok d =>
    cases ht : tally env processGroups Tally.empty with
    | error err => exact hunchanged err (reconcile_of_tally_error env processGroups d err hd ht)
    | ok t =>
      obtain ⟨r1, r2, r3, _⟩ := reconcile_of_ok env processGroups d t hd ht
      have happ : ∀ c ∈ env.ProcessClasses,
          appendedOf env processGroups c = newGroupsFor env d t c :=
        fun c hc => appendedOf_of_ok env processGroups d t hd ht hnd c hc
      have hiff : ∀ c ∈ env.ProcessClasses,
          (appendedOf env processGroups c ≠ [] ↔ 0 < newCountOf d t c) := by
        intro c hc
        rw [happ c hc]
        exact newGroupsFor_ne_nil_iff env d t c
      refine ⟨?_, ?_, ?_, ?_⟩
      · rw [r3]
        split <;> simp
      · rintro ⟨c, hc, hne⟩
        have hany : env.ProcessClasses.any (fun c => decide (0 < newCountOf d t c)) = true := by
          rw [List.any_eq_true]
          exact ⟨c, hc, by simpa using (hiff c hc).mp hne⟩
        rw [r3, r1, if_pos hany]
      · intro hall
        have hany : ¬ env.ProcessClasses.any (fun c => decide (0 < newCountOf d t c)) = true := by
          rw [List.any_eq_true]
          rintro ⟨c, hc, hpos⟩
          exact (hiff c hc).mpr (by simpa using hpos) (hall c hc)
        rw [r3, if_neg hany]
      · rw [r2]
        have hfilter : env.ProcessClasses.filter (fun c => decide (0 < newCountOf d t c)) =
            env.ProcessClasses.filter (fun c => decide (appendedOf env processGroups c ≠ [])) := by
          apply List.filter_congr
          intro c hc
          exact decide_eq_decide.mpr (hiff c hc).symm
        rw [hfilter]
        apply List.map_congr_left
        intro c hc
        rw [List.mem_filter] at hc
        have hpos : 0 < newCountOf d t c := (hiff c hc.1).mp (by simpa using hc.2)
        rw [happ c hc.1, newGroupsFor_length, max_eq_right (le_of_lt hpos)]

/-- Witness for C5: in the scenario of the spec only the storage class grows; there is
one status update, carrying all four groups, and one event. -/
theorem reconcile_single_update_witness :
    (scenarioEnv storage3 scenarioParsed []).ProcessClasses.Nodup ∧
    ((reconcile (scenarioEnv storage3 scenarioParsed []) scenarioGroups).statusUpdates =
        [(reconcile (scenarioEnv storage3 scenarioParsed []) scenarioGroups).processGroups] ∧
      (reconcile (scenarioEnv storage3 scenarioParsed []) scenarioGroups).events =
        [{ eventtype := "Normal", reason := "AddingProcesses"
           message := "Adding 2 storage processes" }]) ∧
    (reconcile (scenarioEnv storage3 scenarioParsed []) scenarioGroups).events =
      ((scenarioEnv storage3 scenarioParsed []).ProcessClasses.filter (fun c => decide
        (appendedOf (scenarioEnv storage3 scenarioParsed []) scenarioGroups c ≠ []))).map
        (fun c => addingEvent
          ((appendedOf (scenarioEnv storage3 scenarioParsed []) scenarioGroups c).length : Int) c) :=
  ⟨by decide, by decide,
    (reconcile_single_update (scenarioEnv storage3 scenarioParsed []) scenarioGroups
      (by decide)).2.2.2⟩

/-! ### The restore pipeline -/

theorem runSubReconcilers_stop {σ : Type} (r : RestoreReconciler σ)
    (s : restoreSubReconciler σ) (post : List (restoreSubReconciler σ)) (rq : requeue) :
    ∀ (pre : List (restoreSubReconciler σ)) (restore restoreK restore1 : σ)
      (invoked : List String),
      passAll pre restore = some restoreK → s.reconcile restoreK = (restore1, some rq) →
      runSubReconcilers r (pre ++ s :: post) restore invoked =
        { invoked := invoked ++ (pre ++ [s]).map (fun x => x.name), state := some restore1
          log := []
          result := (r.processRequeue rq s.name restore1).1
          err := (r.processRequeue rq s.name restore1).2 } := by
  intro pre
  induction pre with
  | nil =>
    intro restore restoreK restore1 invoked hpre hs
    simp only [passAll, Option.some.injEq] at hpre
    subst hpre
    simp [runSubReconcilers, hs]
  | cons x rest ih =>
    intro restore restoreK restore1 invoked hpre hs
    rcases hx : x.reconcile restore with ⟨restore2, _ | rq2⟩
    · simp only [passAll, hx] at hpre
      have hrun : runSubReconcilers r (x :: (rest ++ s :: post)) restore invoked =
          runSubReconcilers r (rest ++ s :: post) restore2 (invoked ++ [x.name]) := by
        simp only [runSubReconcilers, hx]
      rw [List.cons_append, hrun, ih restore2 restoreK restore1 _ hpre hs]
      simp
    · simp [passAll, hx] at hpre

theorem runSubReconcilers_complete {σ : Type} (r : RestoreReconciler σ) :
    ∀ (steps : List (restoreSubReconciler σ)) (restore restoreN : σ) (invoked : List String),
      passAll steps restore = some restoreN →
      runSubReconcilers r steps restore invoked =
        { invoked := invoked ++ steps.map (fun x => x.name), state := some restoreN
          log := ["Reconciliation complete"], result := Result.empty, err := none } := by
  intro steps
  induction steps with
  | nil =>
    intro restore restoreN invoked hall
    simp only [passAll, Option.some.injEq] at hall
    subst hall
    simp [runSubReconcilers]
  | cons x rest ih =>
    intro restore restoreN invoked hall
    rcases hx : x.reconcile restore with ⟨restore2, _ | rq2⟩
    · simp only [passAll, hx] at hall
      simp only [runSubReconcilers, hx]
      rw [ih restore2 restoreN _ hall]
      simp
    · simp [passAll, hx] at hall

/-- C6: pipeline short-circuit. When the target object loads, the steps before step
`s` all return `nil` and `s` returns a non-nil requeue signal, the loop calls
exactly those steps and `s`, once each in declared order, calls none of the
steps after `s` (the state it leaves is the state after `s`), and returns what
`processRequeue` makes of the signal. -/
theorem Reconcile_short_circuit {σ : Type} (r : RestoreReconciler σ)
    (pre post : List (restoreSubReconciler σ)) (s : restoreSubReconciler σ)
    (request : String) (restore restoreK restore1 : σ) (rq : requeue)
    (hload : r.Get request = .ok restore)
    (hpre : passAll pre restore = some restoreK)
    (hs : s.reconcile restoreK = (restore1, some rq)) :
    ReconcileWith r (pre ++ s :: post) request =
      { invoked := (pre ++ [s]).map (fun x => x.name), state := some restore1, log := []
        result := (r.processRequeue rq s.name restore1).1
        err := (r.processRequeue rq s.name restore1).2 } := by
  unfold ReconcileWith
  simp only [hload]
  rw [runSubReconcilers_stop r s post rq pre restore restoreK restore1 [] hpre hs]
  simp

/-- Witness for C6: of four steps the third stops the pass; the fourth is never called. -/
theorem Reconcile_short_circuit_witness :
    passAll [okStep "a", okStep "b"] 0 = some 2 ∧
    ReconcileWith demoReconciler
      ([okStep "a", okStep "b"] ++ failStep "c" "boom" :: [okStep "d"]) "restore" =
      { invoked := ["a", "b", "c"], state := some 3, log := [], result := Result.empty
        err := some "boom" } :=
  ⟨rfl, Reconcile_short_circuit demoReconciler [okStep "a", okStep "b"] [okStep "d"]
    (failStep "c" "boom") "restore" 0 2 3 { curError := some "boom", message := "" }
    rfl rfl rfl⟩

/-- C7: when the target object loads and every step returns `nil`, the loop calls every
step exactly once in declared order: the state it leaves is the state reached
by applying each step's `reconcile` once, in order, to the loaded object, and
the call trace is the step list. It then logs completion and returns the
empty result with a `nil` error: no requeue is requested. -/
theorem Reconcile_all_steps_nil {σ : Type} (r : RestoreReconciler σ)
    (steps : List (restoreSubReconciler σ)) (request : String) (restore restoreN : σ)
    (hload : r.Get request = .ok restore)
    (hall : passAll steps restore = some restoreN) :
    ReconcileWith r steps request =
      { invoked := steps.map (fun x => x.name), state := some restoreN
        log := ["Reconciliation complete"], result := Result.empty, err := none } := by
  unfold ReconcileWith
  simp only [hload]
  rw [runSubReconcilers_complete r steps restore restoreN [] hall]
  simp

/-- Witness for C7: three steps that each write their name into a journal leave the
journal `a, b, c`, every step once and in declared order; and `Reconcile`
itself, whose only step is `startRestore`, leaves the call counter at 1. -/
theorem Reconcile_all_steps_nil_witness :
    (passAll [journalStep "a", journalStep "b", journalStep "c"] [] = some ["a", "b", "c"] ∧
      ReconcileWith journalReconciler [journalStep "a", journalStep "b", journalStep "c"]
          "restore" =
        { invoked := ["a", "b", "c"], state := some ["a", "b", "c"]
          log := ["Reconciliation complete"], result := Result.empty, err := none }) ∧
    passAll [demoReconciler.startRestore] 0 = some 1 ∧
    Reconcile demoReconciler "restore" =
      { invoked := ["startRestore"], state := some 1, log := ["Reconciliation complete"]
        result := Result.empty, err := none } :=
  ⟨⟨rfl, Reconcile_all_steps_nil journalReconciler
      [journalStep "a", journalStep "b", journalStep "c"] "restore" [] ["a", "b", "c"] rfl rfl⟩,
    rfl, Reconcile_all_steps_nil demoReconciler [demoReconciler.startRestore] "restore" 0 1
      rfl rfl⟩

/-- C8: if loading the target object fails, no step is called; the result is empty,
and the returned error is `nil` exactly when the load error is a not-found
error, and is the load error itself otherwise. -/
theorem Reconcile_load_error {σ : Type} (r : RestoreReconciler σ)
    (steps : List (restoreSubReconciler σ)) (request : String) (err : GoError)
    (hload : r.Get request = .error err) :
    (ReconcileWith r steps request).invoked = [] ∧
    (ReconcileWith r steps request).result = Result.empty ∧
    (r.IsNotFound err = true → (ReconcileWith r steps request).err = none) ∧
    (r.IsNotFound err = false → (ReconcileWith r steps request).err = some err) ∧
    ((ReconcileWith r steps request).err = none ↔ r.IsNotFound err = true) := by
  unfold ReconcileWith
  simp only [hload]
  cases hnf : r.IsNotFound err <;> simp

/-- Witness for C8: a load that fails with another error than not-found is returned. -/
theorem Reconcile_load_error_witness :
    (Reconcile demoReconciler "broken").invoked = [] ∧
    (Reconcile demoReconciler "broken").err = some "connection refused" ∧
    (Reconcile demoReconciler "gone").invoked = [] ∧
    (Reconcile demoReconciler "gone").err = none :=
  have h1 := Reconcile_load_error demoReconciler [demoReconciler.startRestore] "broken"
    "connection refused" rfl
  have h2 := Reconcile_load_error demoReconciler [demoReconciler.startRestore] "gone"
    "not found" rfl
  ⟨h1.1, h1.2.2.2.1 (by decide), h2.1, h2.2.2.1 (by decide)⟩

/-! ### The aggregator -/

theorem GoMap.find_set {κ ν : Type} [DecidableEq κ] (k : κ) (v : ν) (k1 : κ) :
    ∀ (m : GoMap κ ν), GoMap.find (GoMap.set m k v) k1 = if k = k1 then some v else GoMap.find m k1 := by
  intro m
  induction m with
  | nil => simp [GoMap.set, GoMap.find]
  | cons p rest ih =>
    obtain ⟨k2, v2⟩ := p
    by_cases h : k2 = k
    · subst h
      by_cases h1 : k2 = k1 <;> simp [GoMap.set, GoMap.find, h1]
    · by_cases h1 : k2 = k1
      · subst h1
        have h2 : ¬ k = k2 := fun hcontra => h hcontra.symm
        simp [GoMap.set, GoMap.find, h, h2]
      · simp [GoMap.set, GoMap.find, h, h1, ih]

theorem GoMap.count_set {κ : Type} [DecidableEq κ] (m : GoMap κ Nat) (k : κ) (v : Nat) (k1 : κ) :
    GoMap.count (GoMap.set m k v) k1 = if k = k1 then v else GoMap.count m k1 := by
  unfold GoMap.count
  rw [GoMap.find_set]
  by_cases h : k = k1 <;> simp [h]

theorem count_bump_tags (tag : ProcessGroupConditionType) :
    ∀ (tags : List ProcessGroupConditionType) (row : GoMap ProcessGroupConditionType Nat),
      tags.Nodup →
      GoMap.count (tags.foldl (fun acc t => GoMap.set acc t (GoMap.count acc t + 1)) row) tag =
        GoMap.count row tag + (if tag ∈ tags then 1 else 0) := by
  intro tags
  induction tags with
  | nil => intro row _; simp
  | cons t rest ih =>
    intro row hnd
    rw [List.nodup_cons] at hnd
    rw [List.foldl_cons, ih _ hnd.2, GoMap.count_set]
    by_cases h : t = tag
    · subst h
      simp [hnd.1]
    · have h2 : ¬ tag = t := fun hcontra => h hcontra.symm
      simp [h, h2]

theorem count_zeroRow (catalog : List ProcessGroupConditionType)
    (tag : ProcessGroupConditionType) : GoMap.count (zeroRow catalog) tag = 0 := by
  have hgen : ∀ (l : List ProcessGroupConditionType) (row : GoMap ProcessGroupConditionType Nat),
      GoMap.count row tag = 0 →
      GoMap.count (l.foldl (fun acc t => GoMap.set acc t 0) row) tag = 0 := by
    intro l
    induction l with
    | nil => intro row h; simpa using h
    | cons t rest ih =>
      intro row h
      rw [List.foldl_cons]
      apply ih
      rw [GoMap.count_set]
      by_cases ht : t = tag <;> simp [ht, h]
  exact hgen catalog [] rfl

theorem exhibited_nodup (g : ProcessGroupStatus) : (exhibited g).Nodup := by
  unfold exhibited
  split
  · simp
  · exact List.nodup_dedup _

theorem mem_exhibited_iff (g : ProcessGroupStatus) (tag : ProcessGroupConditionType) :
    tag ∈ exhibited g ↔
      (g.ProcessGroupConditions = [] ∧ tag = ReadyCondition) ∨ carries g tag = true := by
  unfold exhibited carries
  by_cases h : g.ProcessGroupConditions = []
  · simp [h]
  · simp only [h, if_false, List.mem_dedup, List.mem_map, false_and, false_or, List.any_eq_true,
      decide_eq_true_eq]

theorem stat_metricsStep (catalog : List ProcessGroupConditionType) (m : Metrics)
    (g : ProcessGroupStatus) (c : ProcessClass) (tag : ProcessGroupConditionType) :
    (metricsStep catalog m g).stat c tag =
      m.stat c tag + (if g.ProcessClass = c ∧ tag ∈ exhibited g then 1 else 0) := by
  unfold Metrics.stat metricsStep
  simp only [GoMap.find_set]
  by_cases hc : g.ProcessClass = c
  · subst hc
    simp only [if_true, Option.getD_some, true_and]
    rw [count_bump_tags tag _ _ (exhibited_nodup g)]
    cases hf : GoMap.find m.stats g.ProcessClass with
    | none =>
      have hz := count_zeroRow catalog tag
      simp only [Option.getD_none, hz]
      simp [GoMap.count, GoMap.find]
    | some row => simp
  · simp [hc]

theorem stat_foldl_metricsStep (catalog : List ProcessGroupConditionType) (c : ProcessClass)
    (tag : ProcessGroupConditionType) :
    ∀ (processGroups : List ProcessGroupStatus) (m : Metrics),
      (processGroups.foldl (metricsStep catalog) m).stat c tag = m.stat c tag +
        (processGroups.filter (fun g => decide (g.ProcessClass = c ∧ tag ∈ exhibited g))).length := by
  intro processGroups
  induction processGroups with
  | nil => intro m; simp
  | cons g rest ih =>
    intro m
    rw [List.foldl_cons, ih, stat_metricsStep]
    by_cases h : g.ProcessClass = c ∧ tag ∈ exhibited g
    · simp only [h, and_self, if_true, List.filter_cons, decide_True, List.length_cons]
      omega
    · simp only [h, if_false, List.filter_cons, decide_False, add_zero]
      simp

theorem removals_foldl_metricsStep (catalog : List ProcessGroupConditionType) (c : ProcessClass) :
    ∀ (processGroups : List ProcessGroupStatus) (m : Metrics),
      GoMap.count (processGroups.foldl (metricsStep catalog) m).removals c =
        GoMap.count m.removals c +
        (processGroups.filter (fun g => decide (g.ProcessClass = c ∧ g.Remove = true))).length := by
  intro processGroups
  induction processGroups with
  | nil => intro m; simp
  | cons g rest ih =>
    intro m
    rw [List.foldl_cons, ih]
    simp only [metricsStep, GoMap.count_set]
    by_cases hc : g.ProcessClass = c
    · cases hr : g.Remove
      · simp [hc, hr, List.filter_cons]
      · simp only [hc, hr, if_true, and_self, decide_True, List.filter_cons, List.length_cons]
        omega
    · cases hr : g.Remove <;> simp [hc, hr, List.filter_cons]

theorem exclusions_foldl_metricsStep (catalog : List ProcessGroupConditionType) (c : ProcessClass) :
    ∀ (processGroups : List ProcessGroupStatus) (m : Metrics),
      GoMap.count (processGroups.foldl (metricsStep catalog) m).exclusions c =
        GoMap.count m.exclusions c +
        (processGroups.filter (fun g => decide (g.ProcessClass = c ∧ g.Excluded = true))).length := by
  intro processGroups
  induction processGroups with
  | nil => intro m; simp
  | cons g rest ih =>
    intro m
    rw [List.foldl_cons, ih]
    simp only [metricsStep, GoMap.count_set]
    by_cases hc : g.ProcessClass = c
    · cases hr : g.Excluded
      · simp [hc, hr, List.filter_cons]
      · simp only [hc, hr, if_true, and_self, decide_True, List.filter_cons, List.length_cons]
        omega
    · cases hr : g.Excluded <;> simp [hc, hr, List.filter_cons]

theorem stat_getProcessGroupMetrics (catalog : List ProcessGroupConditionType)
    (processGroups : List ProcessGroupStatus) (c : ProcessClass)
    (tag : ProcessGroupConditionType) :
    (getProcessGroupMetrics catalog processGroups).stat c tag =
      (processGroups.filter (fun g => decide (g.ProcessClass = c ∧
        ((g.ProcessGroupConditions = [] ∧ tag = ReadyCondition) ∨ carries g tag = true)))).length := by
  unfold getProcessGroupMetrics
  rw [stat_foldl_metricsStep]
  have h0 : ({ stats := [], removals := [], exclusions := [] } : Metrics).stat c tag = 0 := rfl
  rw [h0, Nat.zero_add]
  congr 1
  apply List.filter_congr
  intro g _
  exact decide_eq_decide.mpr (and_congr_right (fun _ => mem_exhibited_iff g tag))

/-- C9 (as amended): for every list of process groups, the aggregator counts under the
Ready condition of a class exactly the groups of that class that have no
conditions or carry the Ready condition explicitly, whether or not they are
marked for removal or excluded, and under every other condition type exactly
the groups of that class that carry that condition; so a group whose conditions
are all other than Ready adds nothing to Ready. For the test input: storage
Ready = 2, log Ready = 0, log MissingProcesses = 1, stateless Ready = 1. -/
theorem getProcessGroupMetrics_condition_counts (catalog : List ProcessGroupConditionType)
    (processGroups : List ProcessGroupStatus) (c : ProcessClass)
    (tag : ProcessGroupConditionType) :
    (getProcessGroupMetrics catalog processGroups).stat c ReadyCondition =
      (processGroups.filter (fun g => decide (g.ProcessClass = c ∧
        (g.ProcessGroupConditions = [] ∨ carries g ReadyCondition = true)))).length ∧
    (tag ≠ ReadyCondition →
      (getProcessGroupMetrics catalog processGroups).stat c tag =
        (processGroups.filter (fun g => decide (g.ProcessClass = c ∧
          carries g tag = true))).length) ∧
    ((getProcessGroupMetrics catalog testGroups).stat "storage" ReadyCondition = 2 ∧
      (getProcessGroupMetrics catalog testGroups).stat "log" ReadyCondition = 0 ∧
      (getProcessGroupMetrics catalog testGroups).stat "log" MissingProcesses = 1 ∧
      (getProcessGroupMetrics catalog testGroups).stat "stateless" ReadyCondition = 1) := by
  refine ⟨?_, ?_, ?_, ?_, ?_, ?_⟩
  · rw [stat_getProcessGroupMetrics]
    congr 1
    apply List.filter_congr
    intro g _
    simp
  · intro hne
    rw [stat_getProcessGroupMetrics]
    congr 1
    apply List.filter_congr
    intro g _
    simp [hne]
  · rw [stat_getProcessGroupMetrics]; decide
  · rw [stat_getProcessGroupMetrics]; decide
  · rw [stat_getProcessGroupMetrics]; decide
  · rw [stat_getProcessGroupMetrics]; decide

/-- Counterexample to C9 as stated: a single storage group that carries the Ready
condition explicitly is counted under Ready, although no storage group is
without conditions. -/
theorem getProcessGroupMetrics_ready_counterexample :
    (getProcessGroupMetrics testCatalog explicitReadyGroups).stat "storage" ReadyCondition = 1 ∧
    (explicitReadyGroups.filter (fun g => decide (g.ProcessClass = "storage" ∧
      g.ProcessGroupConditions = []))).length = 0 := by
  decide

/-- C10: for every list of process groups and every class, the removal counter is the
number of groups of the class with `Remove = true` and the exclusion counter the
number of groups of the class with `Excluded = true`, each group counted once;
a class none of whose groups is removed (or excluded) has counter 0. For the
test input: removals storage = 1, stateless = 1; exclusions storage = 0,
stateless = 1. -/
theorem getProcessGroupMetrics_removal_exclusion_counts
    (catalog : List ProcessGroupConditionType) (processGroups : List ProcessGroupStatus)
    (c : ProcessClass) :
    GoMap.count (getProcessGroupMetrics catalog processGroups).removals c =
      (processGroups.filter (fun g => decide (g.ProcessClass = c ∧ g.Remove = true))).length ∧
    GoMap.count (getProcessGroupMetrics catalog processGroups).exclusions c =
      (processGroups.filter (fun g => decide (g.ProcessClass = c ∧ g.Excluded = true))).length ∧
    ((∀ g ∈ processGroups, g.ProcessClass = c → g.Remove = false) →
      GoMap.count (getProcessGroupMetrics catalog processGroups).removals c = 0) ∧
    ((∀ g ∈ processGroups, g.ProcessClass = c → g.Excluded = false) →
      GoMap.count (getProcessGroupMetrics catalog processGroups).exclusions c = 0) ∧
    (GoMap.count (getProcessGroupMetrics catalog testGroups).removals "storage" = 1 ∧
      GoMap.count (getProcessGroupMetrics catalog testGroups).exclusions "storage" = 0 ∧
      GoMap.count (getProcessGroupMetrics catalog testGroups).removals "stateless" = 1 ∧
      GoMap.count (getProcessGroupMetrics catalog testGroups).exclusions "stateless" = 1) := by
  have hrem : ∀ (l : List ProcessGroupStatus) (k : ProcessClass),
      GoMap.count (getProcessGroupMetrics catalog l).removals k =
        (l.filter (fun g => decide (g.ProcessClass = k ∧ g.Remove = true))).length := by
    intro l k
    unfold getProcessGroupMetrics
    rw [removals_foldl_metricsStep]
    simp [GoMap.count, GoMap.find]
  have hexc : ∀ (l : List ProcessGroupStatus) (k : ProcessClass),
      GoMap.count (getProcessGroupMetrics catalog l).exclusions k =
        (l.filter (fun g => decide (g.ProcessClass = k ∧ g.Excluded = true))).length := by
    intro l k
    unfold getProcessGroupMetrics
    rw [exclusions_foldl_metricsStep]
    simp [GoMap.count, GoMap.find]
  refine ⟨hrem _ _, hexc _ _, ?_, ?_, ?_, ?_, ?_, ?_⟩
  · intro hall
    rw [hrem, List.length_eq_zero, List.filter_eq_nil_iff]
    intro g hg
    simp only [decide_eq_true_eq, not_and]
    intro hc
    simp [hall g hg hc]
  · intro hall
    rw [hexc, List.length_eq_zero, List.filter_eq_nil_iff]
    intro g hg
    simp only [decide_eq_true_eq, not_and]
    intro hc
    simp [hall g hg hc]
  · rw [hrem]; decide
  · rw [hexc]; decide
  · rw [hrem]; decide
  · rw [hexc]; decide

/-! ### Bound on the assigned indices -/

/-- C17: the index scan ends with bounded results. For a class of the declared class list
that needs `gap` new groups, when `S` is a finite set holding every positive
index the scan must skip (claimed by an existing record of the class, or
carried by an ID reported as being removed) and `|S| + gap` lies inside the
range of `int`, every newly assigned index `i` is free and satisfies
`1 ≤ i ≤ |S| + gap`: the scan never runs past `|S| + gap` and never yields a
non-positive index. -/
theorem reconcile_scan_bounded (env : ClusterEnv) (processGroups : List ProcessGroupStatus)
    (desired : ProcessClass → Int) (c : ProcessClass) (S : Finset Int)
    (hd : env.GetProcessCountsWithDefaults = .ok desired)
    (hp : ∀ g ∈ processGroups, ∃ v, env.ParseProcessGroupID g.ProcessGroupID = .ok v)
    (hnd : env.ProcessClasses.Nodup) (hc : c ∈ env.ProcessClasses)
    (hS : ∀ i, 0 < i → skipped env processGroups c i = true → i ∈ S)
    (hmax : (S.card : Int) + gap desired processGroups c ≤ maxInt) :
    ∃ idxs : List Int,
      appendedOf env processGroups c =
        idxs.map (fun i => NewProcessGroupStatus (env.GetProcessGroupID c i) c) ∧
      (idxs.length : Int) = gap desired processGroups c ∧
      ∀ i ∈ idxs, 1 ≤ i ∧ i ≤ (S.card : Int) + gap desired processGroups c ∧
        skipped env processGroups c i = false := by
  obtain ⟨t, ht⟩ := tally_ok_of_parse env processGroups Tally.empty hp
  have hn := newCountOf_tally env desired processGroups t ht c
  have hfree : ∀ i, isFree env t c i = !skipped env processGroups c i :=
    isFree_tally env processGroups t ht c
  have hlen : ((newIndicesFor env desired t c).length : Int) = gap desired processGroups c := by
    have h1 := newGroupsFor_length env desired t c
    unfold newGroupsFor at h1
    rw [List.length_map] at h1
    rw [h1, hn]
    rfl
  refine ⟨newIndicesFor env desired t c, ?_, hlen, ?_⟩
  · rw [appendedOf_of_ok env processGroups desired t hd ht hnd c hc]
    rfl
  · intro i hi
    unfold newIndicesFor at hi
    by_cases hle : newCountOf desired t c ≤ 0
    · rw [if_pos hle] at hi
      simp at hi
    · rw [if_neg hle] at hi
      have h2 : 0 ≤ newCountOf desired t c := le_of_lt (not_le.mp hle)
      have hg : gap desired processGroups c = newCountOf desired t c := by
        unfold gap
        rw [← hn, max_eq_right h2]
      have hcast : ((newCountOf desired t c).toNat : Int) = newCountOf desired t c :=
        Int.toNat_of_nonneg h2
      obtain ⟨a, b, cfree⟩ := pickIndices_bounded (isFree env t c)
        (newCountOf desired t c).toNat S 1 (by decide)
        (fun k hk hf => hS k (by omega) (by
          rw [hfree] at hf
          simpa using hf))
        (by rw [hcast, ← hg]; omega) i hi
      rw [hcast, ← hg] at b
      rw [hfree] at cfree
      refine ⟨a, by omega, by simpa using cfree⟩

/-- Witness for C17: the scenario of the spec. Indices 1 and 2 are skipped and two groups
are needed, so the assigned indices lie between 1 and 4. -/
theorem reconcile_scan_bounded_witness :
    ((({1, 2} : Finset Int).card : Int) + gap storage3 scenarioGroups "storage" = 4 ∧
      (4 : Int) ≤ maxInt) ∧
    ∃ idxs : List Int,
      appendedOf (scenarioEnv storage3 scenarioParsed []) scenarioGroups "storage" =
        idxs.map (fun i => NewProcessGroupStatus
          ((scenarioEnv storage3 scenarioParsed []).GetProcessGroupID "storage" i) "storage") ∧
      (idxs.length : Int) = gap storage3 scenarioGroups "storage" ∧
      ∀ i ∈ idxs, 1 ≤ i ∧
        i ≤ (({1, 2} : Finset Int).card : Int) + gap storage3 scenarioGroups "storage" ∧
        skipped (scenarioEnv storage3 scenarioParsed []) scenarioGroups "storage" i = false :=
  ⟨⟨by decide, by decide⟩,
    reconcile_scan_bounded (scenarioEnv storage3 scenarioParsed []) scenarioGroups storage3
      "storage" {1, 2} rfl
      (by
        intro g hg
        simp only [scenarioGroups, List.mem_cons, List.mem_singleton, List.not_mem_nil,
          or_false] at hg
        rcases hg with rfl | rfl
        · exact ⟨("storage", 1), rfl⟩
        · exact ⟨("storage", 2), rfl⟩)
      (by decide) (by decide)
      (by
        intro i hpos hskip
        by_contra hmem
        have h3 : 3 ≤ i := by
          simp only [Finset.mem_insert, Finset.mem_singleton, not_or] at hmem
          omega
        rw [scenario_skipped_above "storage" i h3] at hskip
        exact absurd hskip (by decide))
      (by decide)⟩

/-! ### The database client provider -/

/-- C15: `getDatabaseClientProvider` returns the configured provider whenever it is
non-nil and panics exactly when it is nil; it has no other outcome (no error,
no requeue signal). So `adminClientForRestore`, once the destination cluster
is loaded, panics when the provider is missing and never returns normally;
with a provider it returns normally. -/
theorem getDatabaseClientProvider_fails_fast (r : RestoreClientReconciler) :
    (∀ provider, r.DatabaseClientProvider = some provider →
      getDatabaseClientProvider r = .returns provider) ∧
    ((∃ message, getDatabaseClientProvider r = .panics message) ↔
      r.DatabaseClientProvider = none) ∧
    (∀ (restore : RestoreTarget) (cluster : String),
      r.GetCluster restore.Namespace restore.DestinationClusterName = .ok cluster →
      r.DatabaseClientProvider = none →
      (∃ message, adminClientForRestore r restore = .panics message) ∧
      ∀ value, adminClientForRestore r restore ≠ .returns value) ∧
    (∀ (restore : RestoreTarget) (provider : DatabaseClientProvider),
      r.DatabaseClientProvider = some provider →
      ∃ value, adminClientForRestore r restore = .returns value) := by
  refine ⟨?_, ?_, ?_, ?_⟩
  · intro provider h
    simp [getDatabaseClientProvider, h]
  · cases h : r.DatabaseClientProvider with
    | none => simp [getDatabaseClientProvider, h]
    | some provider => simp [getDatabaseClientProvider, h]
  · intro restore cluster hload hnone
    simp [adminClientForRestore, getDatabaseClientProvider, hload, hnone]
  · intro restore provider hsome
    unfold adminClientForRestore
    cases hload : r.GetCluster restore.Namespace restore.DestinationClusterName with
    | error err => exact ⟨_, rfl⟩
    | ok cluster =>
      simp only [getDatabaseClientProvider, hsome]
      cases hget : provider.GetAdminClient cluster with
      | error err => exact ⟨_, rfl⟩
      | ok adminClient => exact ⟨_, rfl⟩

/-- Witness for C15: without a provider `adminClientForRestore` panics once the cluster
is loaded. -/
theorem getDatabaseClientProvider_fails_fast_witness :
    noProviderReconciler.GetCluster sampleRestore.Namespace sampleRestore.DestinationClusterName
      = .ok "sample-cluster" ∧
    ((∃ message, adminClientForRestore noProviderReconciler sampleRestore = .panics message) ∧
      ∀ value, adminClientForRestore noProviderReconciler sampleRestore ≠ .returns value) ∧
    adminClientForRestore noProviderReconciler sampleRestore =
      .panics "Restore reconciler does not have a DatabaseClientProvider defined" :=
  ⟨rfl, (getDatabaseClientProvider_fails_fast noProviderReconciler).2.2.1 sampleRestore
    "sample-cluster" rfl rfl, rfl⟩

/-! ### Keys of the condition matrix -/

theorem GoMap.keys_set {κ ν : Type} [DecidableEq κ] (k : κ) (v : ν) :
    ∀ (m : GoMap κ ν), GoMap.keys (GoMap.set m k v) =
      if k ∈ GoMap.keys m then GoMap.keys m else GoMap.keys m ++ [k] := by
  intro m
  induction m with
  | nil => simp [GoMap.set, GoMap.keys]
  | cons p rest ih =>
    obtain ⟨k1, v1⟩ := p
    by_cases h : k1 = k
    · subst h
      simp [GoMap.set, GoMap.keys]
    · have h2 : ¬ k = k1 := fun hcontra => h hcontra.symm
      have ih2 := ih
      simp only [GoMap.keys] at ih2
      simp only [GoMap.set, h, if_false, GoMap.keys, List.map_cons, List.mem_cons, h2, false_or,
        ih2]
      split <;> simp

theorem GoMap.mem_keys_iff {κ ν : Type} [DecidableEq κ] (k : κ) :
    ∀ (m : GoMap κ ν), k ∈ GoMap.keys m ↔ ∃ v, GoMap.find m k = some v := by
  intro m
  induction m with
  | nil => simp [GoMap.find, GoMap.keys]
  | cons p rest ih =>
    obtain ⟨k1, v1⟩ := p
    have ih2 := ih
    simp only [GoMap.keys] at ih2
    by_cases h : k1 = k
    · subst h
      simp [GoMap.find, GoMap.keys]
    · have h2 : ¬ k = k1 := fun hcontra => h hcontra.symm
      simp [GoMap.find, GoMap.keys, h, h2, ih2]

theorem GoMap.mem_keys_set {κ ν : Type} [DecidableEq κ] (m : GoMap κ ν) (k : κ) (v : ν)
    (k1 : κ) (h : k1 ∈ GoMap.keys m ∨ k1 = k) : k1 ∈ GoMap.keys (GoMap.set m k v) := by
  rw [GoMap.keys_set]
  split
  · rcases h with h | h
    · exact h
    · subst h
      assumption
  · rw [List.mem_append, List.mem_singleton]
    exact h

theorem mem_keys_foldl_set (f : GoMap ProcessGroupConditionType Nat → ProcessGroupConditionType → Nat)
    (tag : ProcessGroupConditionType) :
    ∀ (tags : List ProcessGroupConditionType) (row : GoMap ProcessGroupConditionType Nat),
      tag ∈ GoMap.keys row ∨ tag ∈ tags →
      tag ∈ GoMap.keys (tags.foldl (fun acc t => GoMap.set acc t (f acc t)) row) := by
  intro tags
  induction tags with
  | nil =>
    intro row h
    simpa using h
  | cons t rest ih =>
    intro row h
    rw [List.foldl_cons]
    apply ih
    rcases h with h | h
    · exact Or.inl (GoMap.mem_keys_set row t _ tag (Or.inl h))
    · rw [List.mem_cons] at h
      rcases h with h | h
      · exact Or.inl (GoMap.mem_keys_set row t _ tag (Or.inr h))
      · exact Or.inr h

theorem keys_foldl_metricsStep (catalog : List ProcessGroupConditionType) :
    ∀ (processGroups : List ProcessGroupStatus) (m : Metrics),
      GoMap.keys (processGroups.foldl (metricsStep catalog) m).stats =
        classesSeen processGroups (GoMap.keys m.stats) := by
  intro processGroups
  induction processGroups with
  | nil => intro m; rfl
  | cons g rest ih =>
    intro m
    rw [List.foldl_cons, ih]
    simp only [classesSeen, List.foldl_cons]
    congr 1
    simp only [metricsStep, GoMap.keys_set]

theorem classesSeen_spec :
    ∀ (processGroups : List ProcessGroupStatus) (seen : List ProcessClass), seen.Nodup →
      (classesSeen processGroups seen).Nodup ∧
      ∀ c, c ∈ classesSeen processGroups seen ↔
        c ∈ seen ∨ ∃ g ∈ processGroups, g.ProcessClass = c := by
  intro processGroups
  induction processGroups with
  | nil =>
    intro seen hnd
    simp [classesSeen, hnd]
  | cons g rest ih =>
    intro seen hnd
    have hstep : classesSeen (g :: rest) seen =
        classesSeen rest (if g.ProcessClass ∈ seen then seen else seen ++ [g.ProcessClass]) := rfl
    rw [hstep]
    by_cases hmem : g.ProcessClass ∈ seen
    · rw [if_pos hmem]
      obtain ⟨a, b⟩ := ih seen hnd
      refine ⟨a, ?_⟩
      intro c
      rw [b c]
      constructor
      · rintro (h | ⟨g1, hg1, h⟩)
        · exact Or.inl h
        · exact Or.inr ⟨g1, List.mem_cons_of_mem _ hg1, h⟩
      · rintro (h | ⟨g1, hg1, h⟩)
        · exact Or.inl h
        · rw [List.mem_cons] at hg1
          rcases hg1 with rfl | hg1
          · subst h
            exact Or.inl hmem
          · exact Or.inr ⟨g1, hg1, h⟩
    · rw [if_neg hmem]
      have hnd2 : (seen ++ [g.ProcessClass]).Nodup := by
        rw [List.nodup_append]
        refine ⟨hnd, List.nodup_singleton _, ?_⟩
        intro x hx hx2
        rw [List.mem_singleton] at hx2
        subst hx2
        exact hmem hx
      obtain ⟨a, b⟩ := ih _ hnd2
      refine ⟨a, ?_⟩
      intro c
      rw [b c, List.mem_append, List.mem_singleton]
      constructor
      · rintro ((h | h) | ⟨g1, hg1, h⟩)
        · exact Or.inl h
        · exact Or.inr ⟨g, List.mem_cons_self _ _, h.symm⟩
        · exact Or.inr ⟨g1, List.mem_cons_of_mem _ hg1, h⟩
      · rintro (h | ⟨g1, hg1, h⟩)
        · exact Or.inl (Or.inl h)
        · rw [List.mem_cons] at hg1
          rcases hg1 with rfl | hg1
          · exact Or.inl (Or.inr h.symm)
          · exact Or.inr ⟨g1, hg1, h⟩

theorem mem_keys_zeroRow (catalog : List ProcessGroupConditionType)
    (tag : ProcessGroupConditionType) (h : tag ∈ catalog) : tag ∈ GoMap.keys (zeroRow catalog) :=
  mem_keys_foldl_set (fun _ _ => 0) tag catalog [] (Or.inr h)

theorem rows_metricsStep (catalog : List ProcessGroupConditionType) (m : Metrics)
    (g : ProcessGroupStatus)
    (hm : ∀ c row, GoMap.find m.stats c = some row → ∀ tag ∈ catalog, tag ∈ GoMap.keys row) :
    ∀ c row, GoMap.find (metricsStep catalog m g).stats c = some row →
      ∀ tag ∈ catalog, tag ∈ GoMap.keys row := by
  intro c row hfind tag htag
  simp only [metricsStep, GoMap.find_set] at hfind
  by_cases hc : g.ProcessClass = c
  · rw [if_pos hc, Option.some.injEq] at hfind
    rw [← hfind]
    apply mem_keys_foldl_set (fun acc t => GoMap.count acc t + 1) tag
    left
    cases hbase : GoMap.find m.stats g.ProcessClass with
    | none => exact mem_keys_zeroRow catalog tag htag
    | some base => exact hm g.ProcessClass base hbase tag htag
  · rw [if_neg hc] at hfind
    exact hm c row hfind tag htag

theorem rows_foldl_metricsStep (catalog : List ProcessGroupConditionType) :
    ∀ (processGroups : List ProcessGroupStatus) (m : Metrics),
      (∀ c row, GoMap.find m.stats c = some row → ∀ tag ∈ catalog, tag ∈ GoMap.keys row) →
      ∀ c row, GoMap.find (processGroups.foldl (metricsStep catalog) m).stats c = some row →
        ∀ tag ∈ catalog, tag ∈ GoMap.keys row := by
  intro processGroups
  induction processGroups with
  | nil => intro m hm; exact hm
  | cons g rest ih =>
    intro m hm
    rw [List.foldl_cons]
    exact ih _ (rows_metricsStep catalog m g hm)

/-- C11: for every list of process groups, the condition matrix has exactly one entry
per process class that occurs among the groups (its keys are those classes,
each once; 3 entries for the test input), the entry of each class has a key
for every condition type of the catalog `AllProcessGroupConditionTypes()`, and
the count is 0 for the conditions no group of the class exhibits. -/
theorem getProcessGroupMetrics_matrix_keys (catalog : List ProcessGroupConditionType)
    (processGroups : List ProcessGroupStatus) :
    (GoMap.keys (getProcessGroupMetrics catalog processGroups).stats).Nodup ∧
    (∀ c, c ∈ GoMap.keys (getProcessGroupMetrics catalog processGroups).stats ↔
      ∃ g ∈ processGroups, g.ProcessClass = c) ∧
    (∀ c row, GoMap.find (getProcessGroupMetrics catalog processGroups).stats c = some row →
      ∀ tag ∈ catalog, ∃ n, GoMap.find row tag = some n) ∧
    (∀ c tag, (∀ g ∈ processGroups, g.ProcessClass = c →
        ¬ ((g.ProcessGroupConditions = [] ∧ tag = ReadyCondition) ∨ carries g tag = true)) →
      (getProcessGroupMetrics catalog processGroups).stat c tag = 0) ∧
    (getProcessGroupMetrics catalog testGroups).stats.length = 3 ∧
    ((GoMap.find (getProcessGroupMetrics testCatalog testGroups).stats "storage").getD []).length
      = testCatalog.length := by
  have hkeys : ∀ l : List ProcessGroupStatus,
      GoMap.keys (getProcessGroupMetrics catalog l).stats = classesSeen l [] := by
    intro l
    unfold getProcessGroupMetrics
    rw [keys_foldl_metricsStep]
    rfl
  obtain ⟨hnd, hmem⟩ := classesSeen_spec processGroups [] List.nodup_nil
  refine ⟨?_, ?_, ?_, ?_, ?_, by decide⟩
  · rw [hkeys]
    exact hnd
  · intro c
    rw [hkeys, hmem c]
    simp
  · intro c row hfind tag htag
    have hrow := rows_foldl_metricsStep catalog processGroups
      { stats := [], removals := [], exclusions := [] }
      (by
        intro c1 row1 h1
        simp [GoMap.find] at h1)
      c row hfind tag htag
    exact (GoMap.mem_keys_iff tag row).mp hrow
  · intro c tag hnone
    rw [stat_getProcessGroupMetrics, List.length_eq_zero, List.filter_eq_nil_iff]
    intro g hg
    simp only [decide_eq_true_eq, not_and]
    intro hc
    exact hnone g hg hc
  · have hlen : (getProcessGroupMetrics catalog testGroups).stats.length =
        (GoMap.keys (getProcessGroupMetrics catalog testGroups).stats).length := by
      simp [GoMap.keys]
    rw [hlen, hkeys]
    decide

/-! ### Bounds on the counters -/

theorem length_filter_and_le (l : List ProcessGroupStatus) (p q : ProcessGroupStatus → Prop)
    [DecidablePred p] [DecidablePred q] :
    (l.filter (fun g => decide (p g ∧ q g))).length ≤ (l.filter (fun g => decide (p g))).length := by
  induction l with
  | nil => simp
  | cons g rest ih =>
    simp only [Bool.decide_and] at ih ⊢
    by_cases hp : p g <;> by_cases hq : q g <;> simp [List.filter_cons, hp, hq] <;> omega

/-- C12: for every list of process groups and every class, no counter of the aggregator
exceeds the number of group records of that class in the input, removal-marked
records included: the Ready count (and the count of every other condition
type), the removal counter and the exclusion counter are each at most the total
number of groups of the class. -/
theorem getProcessGroupMetrics_counters_bounded (catalog : List ProcessGroupConditionType)
    (processGroups : List ProcessGroupStatus) (c : ProcessClass) :
    (getProcessGroupMetrics catalog processGroups).stat c ReadyCondition ≤
      totalGroups processGroups c ∧
    (∀ tag, (getProcessGroupMetrics catalog processGroups).stat c tag ≤
      totalGroups processGroups c) ∧
    GoMap.count (getProcessGroupMetrics catalog processGroups).removals c ≤
      totalGroups processGroups c ∧
    GoMap.count (getProcessGroupMetrics catalog processGroups).exclusions c ≤
      totalGroups processGroups c := by
  have hstat : ∀ tag, (getProcessGroupMetrics catalog processGroups).stat c tag ≤
      totalGroups processGroups c := by
    intro tag
    rw [stat_getProcessGroupMetrics]
    exact length_filter_and_le processGroups (fun g => g.ProcessClass = c) _
  refine ⟨hstat ReadyCondition, hstat, ?_, ?_⟩
  · unfold getProcessGroupMetrics
    rw [removals_foldl_metricsStep]
    have h0 : GoMap.count ({ stats := [], removals := [], exclusions := [] } : Metrics).removals c
        = 0 := rfl
    rw [h0, Nat.zero_add]
    exact length_filter_and_le processGroups (fun g => g.ProcessClass = c) _
  · unfold getProcessGroupMetrics
    rw [exclusions_foldl_metricsStep]
    have h0 : GoMap.count ({ stats := [], removals := [], exclusions := [] } : Metrics).exclusions c
        = 0 := rfl
    rw [h0, Nat.zero_add]
    exact length_filter_and_le processGroups (fun g => g.ProcessClass = c) _

end FDB
